import Mathlib

/-!
# Verification of the blitzdb `Backend` base class
A shallow embedding of `src/blitzdb/backends/base.py`: the class registry
(`register` / `autoregister`), the recursive serializer, the recursive
deserializer and the instance factory, together with theorems about the
registry invariant, serialization round-trips, encoder application order,
error behaviour and the sharing/deep-copy discipline of emitted stubs.

Python dictionaries are modelled as insertion-ordered association lists with
unique keys: lookup returns the first matching entry, update replaces in
place, deletion removes the key.  Mutable Python objects (dicts and lists)
carry an address (`addr`) standing for their object identity, so that
aliasing between the serializer's output and its input is expressible;
`copy.deepcopy` allocates fresh addresses from a counter.
-/

set_option autoImplicit false

namespace BlitzDb

/-! ## Python dictionaries as association lists -/

section Dict

variable {κ : Type} {α : Type} [DecidableEq κ]

/-- Python `d[k]` as a total lookup: first entry with the given key. -/
def dictGet : List (κ × α) → κ → Option α
  | [], _ => none
  | (k, v) :: rest, key => if key = k then some v else dictGet rest key

/-- Python `d[k] = v`: replace the entry in place if the key is present,
otherwise append it (insertion order). -/
def dictSet : List (κ × α) → κ → α → List (κ × α)
  | [], key, v => [(key, v)]
  | (k, w) :: rest, key, v =>
    if k = key then (key, v) :: rest else (k, w) :: dictSet rest key v

/-- Python `del d[k]` (on dicts with unique keys, removing the entry). -/
def dictDel : List (κ × α) → κ → List (κ × α)
  | [], _ => []
  | (k, v) :: rest, key =>
    if k = key then dictDel rest key else (k, v) :: dictDel rest key

/-- The keys of a dictionary, in order. -/
def dictKeys (l : List (κ × α)) : List κ :=
  l.map Prod.fst

end Dict

/-! ## The data model: document classes, registry parameters, backend state

A Python document class is identified by its object identity; we give each
class a numeric `id` plus the data the backend code reads from it: its
`__name__`, its `Meta.collection` attribute (when declared) and its
`Meta.dbref_includes` list (the empty list models both an absent and an
empty `dbref_includes`, which the code treats identically because it tests
truthiness).  Every document class has a `Meta` attribute (the external
`Document` base class provides one). -/

structure DocClass where
  id : Nat
  name : String
  metaCollection : Option String
  dbref_includes : List String
  deriving DecidableEq, Repr

/-- The parameter dictionary stored in the registry.  Only the `collection`
key is ever consulted by the code under verification (`register`,
`get_collection_for_cls`, `serialize`); `collection = none` models a
parameter dictionary without a `'collection'` key.  Other entries of the
Python parameter dictionary (e.g. Meta attributes copied by `autoregister`)
are never read and are not modelled. -/
structure Params where
  collection : Option String
  deriving DecidableEq, Repr

/-- An empty parameter dictionary (`parameters = {}`). -/
def Params.empty : Params := { collection := none }

/-- The mutable state of a `Backend` instance: the class registry
(`self.classes`), the reverse index (`self.collections`), the two
configuration flags, and three counters that model external side effects:
`nextPk` is the next primary key the (abstract, external) `save` would
assign, `savedCount` counts `save` calls, and `nextAddr` is the allocator
for object addresses (fresh Python object identities). -/
structure Backend where
  classes : List (DocClass × Params)
  collections : List (String × DocClass)
  autoload_embedded : Bool
  allow_documents_in_query : Bool
  nextPk : Nat
  savedCount : Nat
  nextAddr : Nat
  deriving DecidableEq, Repr

/-- `Backend.__init__` with `autodiscover_classes=False`: empty registry.
(`autodiscover_classes=True` merely performs a sequence of `register` calls
for the externally maintained global class list, so it is covered by
applying registration operations to this initial state.) -/
def Backend.init (autoload_embedded allow_documents_in_query : Bool) : Backend :=
  { classes := []
    collections := []
    autoload_embedded := autoload_embedded
    allow_documents_in_query := allow_documents_in_query
    nextPk := 1
    savedCount := 0
    nextAddr := 0 }

/-- The collection-name resolution of `Backend.register`: precedence is
explicit `parameters['collection']` > `cls.Meta.collection` > lower-cased
class name. -/
def resolveCollectionName (cls : DocClass) (parameters : Params) : String :=
  match parameters.collection with
  | some c => c
  | none =>
    match cls.metaCollection with
    | some c => c
    | none => cls.name.toLower

/-- `Backend.register(cls, parameters)`: resolve the collection name,
delete every registry entry whose stored collection name collides with the
resolved one, then store the (copied) parameters augmented with the
resolved collection name and point the reverse index at the class. -/
def Backend.register (b : Backend) (cls : DocClass) (parameters : Params) : Backend :=
  let collection_name := resolveCollectionName cls parameters
  let delete_list :=
    (b.classes.filter fun p => decide (p.2.collection = some collection_name)).map Prod.fst
  let classes1 := b.classes.filter fun p => decide (p.1 ∉ delete_list)
  { b with
    collections := dictSet b.collections collection_name cls
    classes := dictSet classes1 cls { parameters with collection := some collection_name } }

/-- `Backend.get_meta_attributes(cls)`: the user attributes of `cls.Meta`
as a parameter dictionary.  Only the `collection` entry is ever read from
the result by the code under verification. -/
def get_meta_attributes (cls : DocClass) : Params :=
  { collection := cls.metaCollection }

/-- `Backend.autoregister(cls)`: register with the Meta attributes as
parameters. -/
def Backend.autoregister (b : Backend) (cls : DocClass) : Backend :=
  b.register cls (get_meta_attributes cls)

/-- A registration operation: an explicit `register` call (with or without
a parameter dictionary; `none` models `parameters=None`, which `register`
replaces by `{}`), or an `autoregister` call. -/
inductive RegOp where
  | reg (cls : DocClass) (parameters : Option Params)
  | auto (cls : DocClass)
  deriving DecidableEq, Repr

/-- Apply one registration operation. -/
def applyRegOp (b : Backend) : RegOp → Backend
  | .reg cls parameters => b.register cls (parameters.getD Params.empty)
  | .auto cls => b.autoregister cls

/-- Apply a sequence of registration operations. -/
def applyRegOps (b : Backend) (ops : List RegOp) : Backend :=
  ops.foldl applyRegOp b

/-! ## Values

The closed universe of values the serializer and deserializer traverse:
`None`, booleans, integers, strings, dictionaries, lists, tuples and
document instances.  Dictionaries and lists are mutable Python objects and
carry an address (object identity).  A document instance (`Document` is
external; §6 of the specification lists the capability set the backend
relies on) carries: its class, its primary key (`.null` = unsaved), its
`_lazy` and `embed` flags, its locally known `attributes`, its
`lazy_attributes`, the outcome of an eager fetch (`eagerResult = none`
models `obj.eager` raising `DoesNotExist`, per the spec's reframing of the
fetch as an explicit result), the primary-key field name
(`get_pk_name()`), and the value the external `obj.serialize(embed=True)`
would return. -/

inductive Value where
  | null
  | boolean (b : Bool)
  | int (n : Int)
  | str (s : String)
  | dict (addr : Nat) (entries : List (String × Value))
  | vlist (addr : Nat) (elems : List Value)
  | tup (elems : List Value)
  | doc (cls : DocClass) (pk : Value) (lazyFlag embedFlag : Bool)
      (attributes : List (String × Value))
      (lazyAttributes : List (String × Value))
      (eagerResult : Option (List (String × Value)))
      (pkName : String) (embedSerialized : Value)

/-- Python `obj.pk == None`. -/
def Value.isNull : Value → Bool
  | .null => true
  | _ => false

/-- The Python exceptions that can escape the serializer/deserializer. -/
inductive SErr where
  | valueError (msg : String)
  | typeError (msg : String)
  | keyError (msg : String)
  | attributeError (msg : String)
  deriving DecidableEq, Repr

mutual

/-- Python hashability: dicts and lists are unhashable, tuples are hashable
iff all their elements are (testing `x in some_dict` hashes `x` and raises
`TypeError` on unhashable values). -/
def pyHashable : Value → Bool
  | .dict _ _ => false
  | .vlist _ _ => false
  | .tup xs => pyHashableList xs
  | _ => true

/-- Hashability of a list of values (used for tuples). -/
def pyHashableList : List Value → Bool
  | [] => true
  | v :: rest => pyHashable v && pyHashableList rest

end

mutual

/-- `copy.deepcopy`: structurally copy a value, giving every copied dict
and list a fresh address drawn from the counter `n`.  Document instances
are copied field by field (Python's default deepcopy of an object). -/
def deepcopyV (n : Nat) : Value → Value × Nat
  | .null => (.null, n)
  | .boolean b => (.boolean b, n)
  | .int m => (.int m, n)
  | .str s => (.str s, n)
  | .dict _ es =>
    let (es', n') := deepcopyEntries (n + 1) es
    (.dict n es', n')
  | .vlist _ xs =>
    let (xs', n') := deepcopyElems (n + 1) xs
    (.vlist n xs', n')
  | .tup xs =>
    let (xs', n') := deepcopyElems n xs
    (.tup xs', n')
  | .doc cls pk lz em attrs lattrs eager pkN embS =>
    let (pk', n1) := deepcopyV n pk
    let (attrs', n2) := deepcopyEntries n1 attrs
    let (lattrs', n3) := deepcopyEntries n2 lattrs
    let (eager', n4) := deepcopyOptEntries n3 eager
    let (embS', n5) := deepcopyV n4 embS
    (.doc cls pk' lz em attrs' lattrs' eager' pkN embS', n5)

/-- Deepcopy of a dictionary's entries. -/
def deepcopyEntries (n : Nat) : List (String × Value) → List (String × Value) × Nat
  | [] => ([], n)
  | (k, v) :: rest =>
    let (v', n1) := deepcopyV n v
    let (rest', n2) := deepcopyEntries n1 rest
    ((k, v') :: rest', n2)

/-- Deepcopy of a list's elements. -/
def deepcopyElems (n : Nat) : List Value → List Value × Nat
  | [] => ([], n)
  | v :: rest =>
    let (v', n1) := deepcopyV n v
    let (rest', n2) := deepcopyElems n1 rest
    (v' :: rest', n2)

/-- Deepcopy of an optional attribute dictionary. -/
def deepcopyOptEntries (n : Nat) :
    Option (List (String × Value)) → Option (List (String × Value)) × Nat
  | none => (none, n)
  | some es =>
    let (es', n') := deepcopyEntries n es
    (some es', n')

end

mutual

/-- The addresses (object identities) of all mutable nodes (dicts and
lists) reachable in a value.  Two values that share an address alias the
same mutable Python object. -/
def addrsV : Value → List Nat
  | .dict a es => a :: addrsEntries es
  | .vlist a xs => a :: addrsElems xs
  | .tup xs => addrsElems xs
  | .doc _ pk _ _ attrs lattrs eager _ embS =>
    addrsV pk ++ addrsEntries attrs ++ addrsEntries lattrs ++
      addrsOptEntries eager ++ addrsV embS
  | _ => []

/-- Addresses reachable in a dictionary's entries. -/
def addrsEntries : List (String × Value) → List Nat
  | [] => []
  | (_, v) :: rest => addrsV v ++ addrsEntries rest

/-- Addresses reachable in a list of values. -/
def addrsElems : List Value → List Nat
  | [] => []
  | v :: rest => addrsV v ++ addrsElems rest

/-- Addresses reachable in an optional attribute dictionary. -/
def addrsOptEntries : Option (List (String × Value)) → List Nat
  | none => []
  | some es => addrsEntries es

end

mutual

/-- Erase all addresses (set them to 0): the value up to object identity.
Python `==` on data copied by `deepcopy` compares equal, which is exactly
equality after `stripV`. -/
def stripV : Value → Value
  | .null => .null
  | .boolean b => .boolean b
  | .int m => .int m
  | .str s => .str s
  | .dict _ es => .dict 0 (stripEntries es)
  | .vlist _ xs => .vlist 0 (stripElems xs)
  | .tup xs => .tup (stripElems xs)
  | .doc cls pk lz em attrs lattrs eager pkN embS =>
    .doc cls (stripV pk) lz em (stripEntries attrs) (stripEntries lattrs)
      (stripOptEntries eager) pkN (stripV embS)

/-- Address erasure on a dictionary's entries. -/
def stripEntries : List (String × Value) → List (String × Value)
  | [] => []
  | (k, v) :: rest => (k, stripV v) :: stripEntries rest

/-- Address erasure on a list of values. -/
def stripElems : List Value → List Value
  | [] => []
  | v :: rest => stripV v :: stripElems rest

/-- Address erasure on an optional attribute dictionary. -/
def stripOptEntries : Option (List (String × Value)) → Option (List (String × Value))
  | none => none
  | some es => some (stripEntries es)

end

/-! ## The serializer -/

/-- `key.split(".")`, computed character by character (Python semantics:
splitting the empty string yields `[""]`, a trailing separator yields a
trailing empty fragment). -/
def splitDotsAux : List Char → List Char → List String
  | [], acc => [String.mk acc.reverse]
  | c :: cs, acc =>
    if c = '.' then String.mk acc.reverse :: splitDotsAux cs []
    else splitDotsAux cs (c :: acc)

/-- `key.split(".")`. -/
def splitDots (k : String) : List String :=
  splitDotsAux k.toList []

/-- `include_key.replace(".", "_")`. -/
def underscoreKey (k : String) : String :=
  String.mk (k.toList.map fun c => if c = '.' then '_' else c)

/-- Traversal of the remaining fragments of a dotted path inside
`get_value`: each further fragment subscripts the current value.  A plain
Python subscript on a non-dictionary raises `TypeError` (only dictionaries
are subscriptable by our string fragments); a missing key raises
`KeyError`. -/
def getPath : Value → List String → Except SErr Value
  | v, [] => .ok v
  | .dict _ es, f :: rest =>
    match dictGet es f with
    | some v => getPath v rest
    | none => .error (.keyError f)
  | _, _ :: _ => .error (.typeError "object is not subscriptable")

/-- The nested helper `get_value(obj, key)` of `Backend.serialize`: split
the key at dots and subscript repeatedly.  The first subscript is
`obj[fragment]` on the document itself, which reads the instance's
attribute mapping (external `Document.__getitem__`, raising `KeyError` for
a missing attribute). -/
def get_value (attrs : List (String × Value)) (key : String) : Except SErr Value :=
  match splitDots key with
  | [] => .error (.keyError key)
  | f :: rest =>
    match dictGet attrs f with
    | some v => getPath v rest
    | none => .error (.keyError f)

/-- The `dbref_includes` loop of `Backend.serialize`: for each include key,
resolve it with `get_value` and store it in the stub under the key with
dots replaced by underscores; a `KeyError` is caught and the key skipped
(`continue`); any other exception (in particular `TypeError`) propagates. -/
def addIncludes (attrs : List (String × Value)) :
    List String → List (String × Value) → Except SErr (List (String × Value))
  | [], acc => .ok acc
  | key :: ks, acc =>
    match get_value attrs key with
    | .ok v => addIncludes attrs ks (dictSet acc (underscoreKey key) v)
    | .error (.keyError _) => addIncludes attrs ks acc
    | .error e => .error e

/-- The reference stub built for a non-lazy, un-embedded document:
`{'pk': ..., '__collection__': ...}` extended by the configured
reference-include fields (the code guards on the truthiness of
`obj.Meta.dbref_includes`, so an empty list skips the loop). -/
def buildRefStub (cls : DocClass) (pk : Value) (attrs : List (String × Value))
    (coll : String) : Except SErr (List (String × Value)) :=
  let base := [("pk", pk), ("__collection__", Value.str coll)]
  if cls.dbref_includes.isEmpty then .ok base
  else addIncludes attrs cls.dbref_includes base

/-- The keyword options of `serialize` that are passed unchanged to every
recursive call (`serialize_with_opts`). -/
structure SCfg where
  convert_keys_to_str : Bool
  autosave : Bool
  for_query : Bool
  deriving DecidableEq, Repr

/-- Modelled from the spec: `obj.save(self)` (external abstract backend
save, §6) persists the document and assigns a primary key when it has
none; we model the assigned key as the backend's next free integer key.
`effPk` is the primary key after the autosave step of `serialize`
(`if obj.pk == None and autosave: obj.save(self)`). -/
def effPk (b : Backend) (pk : Value) (autosave : Bool) : Value :=
  if pk.isNull && autosave then .int (b.nextPk : Int) else pk

/-- The backend state after the autosave step: the save side effect is
recorded in `savedCount`, and the assigned key is consumed from `nextPk`.
The registry and configuration are untouched. -/
def effSave (b : Backend) (pk : Value) (autosave : Bool) : Backend :=
  if pk.isNull && autosave then
    { b with nextPk := b.nextPk + 1, savedCount := b.savedCount + 1 }
  else b

/-- `self.classes[cls]['collection']` as a total lookup. -/
def classCollection (b : Backend) (cls : DocClass) : Option String :=
  match dictGet b.classes cls with
  | some ps => ps.collection
  | none => none

/-- `Backend.get_collection_for_cls`: autoregister an unknown class (every
modelled class is a `Document` subclass, so the `issubclass` test holds)
and read the stored collection name.  The `none` fallbacks model the
`KeyError` a missing dictionary entry would raise; they are unreachable
because `register` always stores a resolved collection name. -/
def get_collection_for_cls (b : Backend) (cls : DocClass) : Backend × Except SErr String :=
  if (dictGet b.classes cls).isSome then
    match classCollection b cls with
    | some c => (b, .ok c)
    | none => (b, .error (.keyError "collection"))
  else
    let b1 := b.autoregister cls
    match classCollection b1 cls with
    | some c => (b1, .ok c)
    | none => (b1, .error (.keyError "collection"))

/-- Wrap serialized dictionary entries into a freshly allocated output
dictionary (`output_obj = {}` creates a new object). -/
def finishDict (p : Backend × Except SErr (List (String × Value))) :
    Backend × Except SErr Value :=
  match p with
  | (b, .ok es) => ({ b with nextAddr := b.nextAddr + 1 }, .ok (.dict b.nextAddr es))
  | (b, .error e) => (b, .error e)

/-- Wrap serialized list elements into a freshly allocated output list. -/
def finishList (p : Backend × Except SErr (List Value)) :
    Backend × Except SErr Value :=
  match p with
  | (b, .ok xs) => ({ b with nextAddr := b.nextAddr + 1 }, .ok (.vlist b.nextAddr xs))
  | (b, .error e) => (b, .error e)

mutual

/-- The body of `Backend.serialize` after the encoder loop (recursive calls
go through `serialize_with_opts`, which does not pass `encoders`, so the
encoder loop is skipped on recursion).  Dictionary keys are modelled as
strings, so the `str(key) if convert_keys_to_str else key` conversion is
the identity.  The document case follows lines 164–196 of the source:
resolve the collection (auto-registering); with `embed_level > 0` serialize
the eager attributes at `embed_level - 1`, falling back to the locally
known attributes when the fetch fails with `DoesNotExist`; an `embed`
instance defers to the external `obj.serialize(embed=True)`; otherwise
autosave a keyless instance, then emit either a lazy reference stub (a
deep copy of the known lazy attributes, minus the primary-key field, plus
`pk` and `__collection__`) or — after the query gate — the minimal
reference stub with the configured include fields. -/
def serializeV (cfg : SCfg) (b : Backend) (lvl : Nat) : Value → Backend × Except SErr Value
  | .dict _ es => finishDict (serializeEntries cfg b lvl es)
  | .vlist _ xs => finishList (serializeElems cfg b lvl xs)
  | .tup xs =>
    match serializeElems cfg b lvl xs with
    | (b1, .ok ys) => (b1, .ok (.tup ys))
    | (b1, .error e) => (b1, .error e)
  | .doc cls pk lz em attrs lattrs eager pkN embS =>
    match get_collection_for_cls b cls with
    | (b1, .error e) => (b1, .error e)
    | (b1, .ok _coll) =>
      if 0 < lvl then
        match eager with
        | some ea => finishDict (serializeEntries cfg b1 (lvl - 1) ea)
        | none => finishDict (serializeEntries cfg b1 (lvl - 1) attrs)
      else if em then (b1, .ok embS)
      else
        let pk1 := effPk b1 pk cfg.autosave
        let b2 := effSave b1 pk cfg.autosave
        if lz then
          match classCollection b2 cls with
          | some coll =>
            let (cp, n1) := deepcopyEntries b2.nextAddr lattrs
            let o := dictSet (dictSet (dictDel cp pkN) "pk" pk1)
              "__collection__" (.str coll)
            ({ b2 with nextAddr := n1 + 1 }, .ok (.dict n1 o))
          | none => (b2, .error (.keyError "collection"))
        else
          if cfg.for_query && !b2.allow_documents_in_query then
            (b2, .error (.valueError "Documents are not allowed in queries!"))
          else
            match classCollection b2 cls with
            | some coll =>
              match buildRefStub cls pk1 attrs coll with
              | .ok es => ({ b2 with nextAddr := b2.nextAddr + 1 },
                  .ok (.dict b2.nextAddr es))
              | .error e => (b2, .error e)
            | none => (b2, .error (.keyError "collection"))
  | .null => (b, .ok .null)
  | .boolean bv => (b, .ok (.boolean bv))
  | .int m => (b, .ok (.int m))
  | .str s => (b, .ok (.str s))

/-- Serialize every value of a dictionary (same `embed_level`). -/
def serializeEntries (cfg : SCfg) (b : Backend) (lvl : Nat) :
    List (String × Value) → Backend × Except SErr (List (String × Value))
  | [] => (b, .ok [])
  | (k, v) :: rest =>
    match serializeV cfg b lvl v with
    | (b1, .ok v') =>
      match serializeEntries cfg b1 lvl rest with
      | (b2, .ok rest') => (b2, .ok ((k, v') :: rest'))
      | (b2, .error e) => (b2, .error e)
    | (b1, .error e) => (b1, .error e)

/-- Serialize every element of a list or tuple (same `embed_level`). -/
def serializeElems (cfg : SCfg) (b : Backend) (lvl : Nat) :
    List Value → Backend × Except SErr (List Value)
  | [] => (b, .ok [])
  | v :: rest =>
    match serializeV cfg b lvl v with
    | (b1, .ok v') =>
      match serializeElems cfg b1 lvl rest with
      | (b2, .ok rest') => (b2, .ok (v' :: rest'))
      | (b2, .error e) => (b2, .error e)
    | (b1, .error e) => (b1, .error e)

end

/-- The encoder/decoder loop shared by `serialize` and `deserialize`:
every pair whose predicate matches the current value replaces it by the
transformed value, in order (the loop does not stop at the first match). -/
def applyCoders (coders : List ((Value → Bool) × (Value → Value))) (obj : Value) : Value :=
  coders.foldl (fun o me => if me.1 o then me.2 o else o) obj

/-- `Backend.serialize` including the encoder loop (recursive calls pass
`encoders=None`, so only the top-level value sees the encoders). -/
def Backend.serialize (b : Backend) (cfg : SCfg) (embed_level : Nat) (obj : Value)
    (encoders : List ((Value → Bool) × (Value → Value))) :
    Backend × Except SErr Value :=
  serializeV cfg b embed_level (applyCoders encoders obj)

/-! ## The instance factory and the deserializer -/

/-- Modelled from the spec: document construction is external to the code
under verification (both the registered custom `'constructor'` and the
default `cls(attributes, lazy=lazy, default_backend=self, autoload=...)`
construct a document through the external `Document` contract).  Per §4.3
and §3 of the specification, the constructed lazy instance knows exactly
the attributes it is given; its primary key is assigned separately by the
deserializer.  The fetch outcome and embed-serialization fields of the
fresh instance are unspecified externals, set to inert defaults that no
verified operation consults. -/
def mkInstance (cls : DocClass) (attributes : List (String × Value))
    (lazyFlag : Bool) : Value :=
  .doc cls .null lazyFlag false attributes attributes none "pk" .null

/-- `Backend.create_instance`: resolve a class or a collection name to a
registered class and construct an instance.  The parameter dictionary of
the resolved class is looked up (`self.classes[cls]`) before construction;
on a class missing from the registry that lookup raises `KeyError`. -/
def create_instance (b : Backend) (collection_or_class : DocClass ⊕ String)
    (attributes : List (String × Value)) (lazyFlag : Bool) : Except SErr Value :=
  let resolved : Option DocClass :=
    match collection_or_class with
    | .inl cls => if (dictGet b.classes cls).isSome then some cls else none
    | .inr name => dictGet b.collections name
  match resolved with
  | none => .error (.attributeError "Unknown collection or class!")
  | some cls =>
    match dictGet b.classes cls with
    | none => .error (.keyError "classes")
    | some _ps => .ok (mkInstance cls attributes lazyFlag)

/-- `output_obj.pk = obj[pk_field]`: assign the primary key of a document
instance. -/
def setDocPk (v pkv : Value) : Value :=
  match v with
  | .doc cls _ lz em attrs lattrs eager pkN embS =>
    .doc cls pkv lz em attrs lattrs eager pkN embS
  | other => other

/-- Python `x in some_dict` for the reverse index: hash the value (raising
`TypeError` on unhashable values is handled by the caller) and test key
membership; only strings can be keys of `self.collections`. -/
def isKnownCollection (b : Backend) : Value → Bool
  | .str c => (dictGet b.collections c).isSome
  | _ => false

/-- The primary-key field recognized by the deserializer: the legacy
`__pk__` takes precedence over `pk`; `none` when neither key is present. -/
def pkFieldOf (es : List (String × Value)) : Option String :=
  if (dictGet es "__pk__").isSome then some "__pk__"
  else if (dictGet es "pk").isSome then some "pk"
  else none

mutual

/-- The body of `Backend.deserialize` after the decoder loop (recursive
calls do not pass `decoders`).  A dictionary with a recognized primary-key
field (legacy `__pk__` checked before `pk`) and a `__collection__` value
that is a known collection name becomes a lazy instance: the attributes
are a deep copy of the mapping minus the primary-key field and
`__collection__`, and the primary key is assigned from the original
mapping.  Any other dictionary is rebuilt by deserializing each value;
lists and tuples are both rebuilt as lists; everything else is returned
unchanged.  Testing `obj['__collection__'] in self.collections` hashes the
value, so an unhashable `__collection__` value raises `TypeError`. -/
def deserializeV (b : Backend) (n : Nat) : Value → Nat × Except SErr Value
  | .dict _ es =>
    match dictGet es "__collection__" with
    | some cv =>
      if pyHashable cv then
        match cv, pkFieldOf es with
        | .str c, some pkF =>
          if (dictGet b.collections c).isSome then
            let (cp, n1) := deepcopyEntries n es
            let attributes := dictDel (dictDel cp pkF) "__collection__"
            match create_instance b (.inr c) attributes true with
            | .ok inst => (n1, .ok (setDocPk inst ((dictGet es pkF).getD .null)))
            | .error e => (n1, .error e)
          else
            match deserializeEntries b n es with
            | (n1, .ok es') => (n1 + 1, .ok (.dict n1 es'))
            | (n1, .error e) => (n1, .error e)
        | _, _ =>
          match deserializeEntries b n es with
          | (n1, .ok es') => (n1 + 1, .ok (.dict n1 es'))
          | (n1, .error e) => (n1, .error e)
      else (n, .error (.typeError "unhashable type"))
    | none =>
      match deserializeEntries b n es with
      | (n1, .ok es') => (n1 + 1, .ok (.dict n1 es'))
      | (n1, .error e) => (n1, .error e)
  | .vlist _ xs =>
    match deserializeElems b n xs with
    | (n1, .ok ys) => (n1 + 1, .ok (.vlist n1 ys))
    | (n1, .error e) => (n1, .error e)
  | .tup xs =>
    match deserializeElems b n xs with
    | (n1, .ok ys) => (n1 + 1, .ok (.vlist n1 ys))
    | (n1, .error e) => (n1, .error e)
  | .null => (n, .ok .null)
  | .boolean bv => (n, .ok (.boolean bv))
  | .int m => (n, .ok (.int m))
  | .str s => (n, .ok (.str s))
  | .doc cls pk lz em attrs lattrs eager pkN embS =>
    (n, .ok (.doc cls pk lz em attrs lattrs eager pkN embS))

/-- Deserialize every value of a dictionary (fallback branch). -/
def deserializeEntries (b : Backend) (n : Nat) :
    List (String × Value) → Nat × Except SErr (List (String × Value))
  | [] => (n, .ok [])
  | (k, v) :: rest =>
    match deserializeV b n v with
    | (n1, .ok v') =>
      match deserializeEntries b n1 rest with
      | (n2, .ok rest') => (n2, .ok ((k, v') :: rest'))
      | (n2, .error e) => (n2, .error e)
    | (n1, .error e) => (n1, .error e)

/-- Deserialize every element of a list or tuple. -/
def deserializeElems (b : Backend) (n : Nat) :
    List Value → Nat × Except SErr (List Value)
  | [] => (n, .ok [])
  | v :: rest =>
    match deserializeV b n v with
    | (n1, .ok v') =>
      match deserializeElems b n1 rest with
      | (n2, .ok rest') => (n2, .ok (v' :: rest'))
      | (n2, .error e) => (n2, .error e)
    | (n1, .error e) => (n1, .error e)

end

/-- `Backend.deserialize` including the decoder loop.  The deserializer
never touches the registry; its only state is the address allocator for
the fresh objects it builds, threaded as `n`. -/
def Backend.deserialize (b : Backend) (n : Nat) (obj : Value)
    (decoders : List ((Value → Bool) × (Value → Value))) :
    Nat × Except SErr Value :=
  deserializeV b n (applyCoders decoders obj)

/-- Stated from the specification's words, for comparison with the code:
"the first matching predicate's transform replaces the value" — apply only
the first encoder whose predicate matches, and no later one. -/
def applyCodersFirstMatchOnly (coders : List ((Value → Bool) × (Value → Value)))
    (obj : Value) : Value :=
  match coders.find? (fun me => me.1 obj) with
  | some me => me.2 obj
  | none => obj

/-- The mutual consistency property claimed for the registry and the
reverse index, stated from the specification's words: every registered
type's resolved collection name maps back to the type in the reverse
index, and every reverse-index entry points to a currently registered type
whose resolved collection name is that entry's key. -/
def registryConsistent (b : Backend) : Prop :=
  (∀ cls ps c, dictGet b.classes cls = some ps → ps.collection = some c →
    dictGet b.collections c = some cls) ∧
  (∀ c cls, dictGet b.collections c = some cls →
    ∃ ps, dictGet b.classes cls = some ps ∧ ps.collection = some c)

/-- The half of `registryConsistent` that the code actually maintains:
registry entries resolve back through the reverse index. -/
def registryForwardConsistent (b : Backend) : Prop :=
  ∀ cls ps c, dictGet b.classes cls = some ps → ps.collection = some c →
    dictGet b.collections c = some cls

/-- Auxiliary invariant: the registry's keys are distinct and every stored
parameter dictionary has a resolved collection name (both hold for every
backend built by registration operations). -/
def registryWf (b : Backend) : Prop :=
  (dictKeys b.classes).Nodup ∧
  ∀ cls ps, dictGet b.classes cls = some ps → ps.collection.isSome

/-- Whether a `get_value` resolution raised `TypeError`. -/
def isTypeErr : Except SErr Value → Bool
  | .error (.typeError _) => true
  | _ => false

/-- Every reverse-index entry points to a class present in the registry
(`create_instance` looks up `self.classes[cls]` and would raise `KeyError`
otherwise). -/
def createSafe (b : Backend) : Prop :=
  ∀ p ∈ b.collections, (dictGet b.classes p.2).isSome = true

/-- The deserializer's reference-stub guard as a boolean: the mapping has a
`__collection__` entry whose value is a known collection name and a
recognized primary-key field (`__pk__` or `pk`). -/
def isRefStubShape (b : Backend) (es : List (String × Value)) : Bool :=
  (match dictGet es "__collection__" with
   | some (.str c) => (dictGet b.collections c).isSome
   | _ => false) &&
  ((dictGet es "__pk__").isSome || (dictGet es "pk").isSome)

mutual

/-- Every dictionary reachable in the value has a hashable `__collection__`
entry (or none at all): the condition under which the deserializer's
membership test `obj['__collection__'] in self.collections` cannot raise
`TypeError`. -/
def collectionsHashable : Value → Bool
  | .dict _ es =>
    (match dictGet es "__collection__" with
     | some cv => pyHashable cv
     | none => true) && collectionsHashableEntries es
  | .vlist _ xs => collectionsHashableElems xs
  | .tup xs => collectionsHashableElems xs
  | _ => true

/-- `collectionsHashable` over a dictionary's entries. -/
def collectionsHashableEntries : List (String × Value) → Bool
  | [] => true
  | (_, v) :: rest => collectionsHashable v && collectionsHashableEntries rest

/-- `collectionsHashable` over a list's elements. -/
def collectionsHashableElems : List Value → Bool
  | [] => true
  | v :: rest => collectionsHashable v && collectionsHashableElems rest

end

/-! ## Concrete classes, backends and values used as witnesses -/

/-- A document class stored in collection `book`, with no include fields. -/
def bookClass : DocClass :=
  { id := 0, name := "Book", metaCollection := some "book", dbref_includes := [] }

/-- A document class with a flat reference-include field `info`. -/
def authorClass : DocClass :=
  { id := 1, name := "Author", metaCollection := some "author", dbref_includes := ["info"] }

/-- A document class with a dotted reference-include path `a.b`. -/
def itemClass : DocClass :=
  { id := 2, name := "Item", metaCollection := some "item", dbref_includes := ["a.b"] }

/-- A document class with one resolvable and one missing include field. -/
def noteClass : DocClass :=
  { id := 3, name := "Note", metaCollection := some "note",
    dbref_includes := ["title", "missing"] }

/-- A plain document class used in the registry scenarios. -/
def tClass : DocClass :=
  { id := 4, name := "T", metaCollection := none, dbref_includes := [] }

/-- A backend with the four demo classes registered and documents allowed
in queries. -/
def demoBackend : Backend :=
  { classes := [(bookClass, { collection := some "book" }),
      (authorClass, { collection := some "author" }),
      (itemClass, { collection := some "item" }),
      (noteClass, { collection := some "note" })]
    collections := [("book", bookClass), ("author", authorClass),
      ("item", itemClass), ("note", noteClass)]
    autoload_embedded := true
    allow_documents_in_query := true
    nextPk := 1
    savedCount := 0
    nextAddr := 100 }

/-- The same backend with documents disallowed in queries. -/
def strictBackend : Backend :=
  { demoBackend with allow_documents_in_query := false }

/-- The default serialization options (`convert_keys_to_str=False,
autosave=True, for_query=False`). -/
def defaultCfg : SCfg :=
  { convert_keys_to_str := false, autosave := true, for_query := false }

/-- The backend obtained by registering `tClass` under collection `a` and
then re-registering it under collection `b` (the scenario of the registry
consistency claim). -/
def orphanBackend : Backend :=
  applyRegOps (Backend.init true true)
    [.reg tClass (some { collection := some "a" }),
     .reg tClass (some { collection := some "b" })]

/-- An encoder predicate matching integers. -/
def isIntV : Value → Bool
  | .int _ => true
  | _ => false

/-- An encoder transform adding one to an integer. -/
def addOneV : Value → Value
  | .int n => .int (n + 1)
  | v => v

/-- An encoder transform doubling an integer. -/
def doubleV : Value → Value
  | .int n => .int (2 * n)
  | v => v

/-- An eager `Book` document with primary key 7 and one attribute. -/
def bookDoc : Value :=
  .doc bookClass (.int 7) false false [("name", .str "x")] [] none "pk" .null

/-- An eager `Item` document whose attribute `a` is the integer 5, so the
include path `a.b` subscripts a non-dictionary. -/
def itemDoc : Value :=
  .doc itemClass (.int 1) false false [("a", .int 5)] [] none "pk" .null

/-- An eager `Author` document whose attribute `info` is a mutable
dictionary with address 7. -/
def authorDoc : Value :=
  .doc authorClass (.int 3) false false [("info", .dict 7 [("x", .int 0)])] [] none "pk" .null

/-- An eager `Note` document with a resolvable `title` attribute (the
`missing` include path is absent). -/
def noteDoc : Value :=
  .doc noteClass (.int 2) false false [("title", .str "t")] [] none "pk" .null

/-- A lazy `Book` document whose locally known attributes contain a mutable
dictionary with address 5. -/
def lazyBookDoc : Value :=
  .doc bookClass (.int 9) true false [] [("known", .dict 5 [("z", .int 1)])] none "pk" .null

/-- An eager keyless `Book` document (autosave scenarios). -/
def keylessBookDoc : Value :=
  .doc bookClass .null false false [("name", .str "k")] [] none "pk" .null

/-! ## Dictionary lemmas -/

section DictLemmas

variable {κ : Type} {α : Type} [DecidableEq κ]

theorem dictGet_cons (k : κ) (v : α) (rest : List (κ × α)) (key : κ) :
    dictGet ((k, v) :: rest) key = if key = k then some v else dictGet rest key := rfl

@[simp] theorem dictGet_dictSet_self (l : List (κ × α)) (k : κ) (v : α) :
    dictGet (dictSet l k v) k = some v := by
  induction l with
  | nil => simp [dictSet, dictGet]
  | cons p rest ih =>
    obtain ⟨k', w⟩ := p
    by_cases h : k' = k
    · simp [dictSet, dictGet, h]
    · simp [dictSet, dictGet, h, Ne.symm h, ih]

theorem dictGet_dictSet_ne (l : List (κ × α)) (k k' : κ) (v : α) (h : k' ≠ k) :
    dictGet (dictSet l k v) k' = dictGet l k' := by
  induction l with
  | nil => simp [dictSet, dictGet, h]
  | cons p rest ih =>
    obtain ⟨k'', w⟩ := p
    by_cases h2 : k'' = k
    · subst h2
      simp [dictSet, dictGet, h]
    · simp only [dictSet, if_neg h2]
      by_cases h3 : k' = k''
      · simp [dictGet, h3]
      · simp [dictGet, h3, ih]

@[simp] theorem dictGet_dictDel_self (l : List (κ × α)) (k : κ) :
    dictGet (dictDel l k) k = none := by
  induction l with
  | nil => simp [dictDel, dictGet]
  | cons p rest ih =>
    obtain ⟨k', w⟩ := p
    by_cases h : k' = k
    · simpa [dictDel, h] using ih
    · simpa [dictDel, dictGet, h, Ne.symm h] using ih

theorem dictGet_dictDel_ne (l : List (κ × α)) (k k' : κ) (h : k' ≠ k) :
    dictGet (dictDel l k) k' = dictGet l k' := by
  induction l with
  | nil => simp [dictDel]
  | cons p rest ih =>
    obtain ⟨k'', w⟩ := p
    by_cases h2 : k'' = k
    · subst h2
      have h3 : k' ≠ k'' := h
      simp [dictDel, dictGet, h3, ih]
    · by_cases h3 : k' = k''
      · simp [dictDel, dictGet, h2, h3]
      · simp [dictDel, dictGet, h2, h3, ih]

theorem not_mem_dictKeys_dictSet (l : List (κ × α)) (k k' : κ) (v : α)
    (h1 : k' ∉ dictKeys l) (h2 : k' ≠ k) : k' ∉ dictKeys (dictSet l k v) := by
  induction l with
  | nil => simpa [dictSet, dictKeys] using h2
  | cons p rest ih =>
    obtain ⟨k'', w⟩ := p
    simp only [dictKeys, List.map_cons, List.mem_cons, not_or] at h1
    by_cases h3 : k'' = k
    · subst h3
      simp only [dictSet, eq_self_iff_true, if_true, ite_true, dictKeys,
        List.map_cons, List.mem_cons, not_or]
      exact ⟨h2, h1.2⟩
    · simp only [dictSet, if_neg h3, dictKeys, List.map_cons, List.mem_cons, not_or]
      exact ⟨h1.1, ih h1.2⟩

theorem dictKeys_dictSet_nodup (l : List (κ × α)) (k : κ) (v : α)
    (h : (dictKeys l).Nodup) : (dictKeys (dictSet l k v)).Nodup := by
  induction l with
  | nil => simp [dictSet, dictKeys]
  | cons p rest ih =>
    obtain ⟨k', w⟩ := p
    simp only [dictKeys, List.map_cons, List.nodup_cons] at h
    by_cases h2 : k' = k
    · subst h2
      simpa [dictSet, dictKeys, List.nodup_cons] using h
    · simp only [dictSet, if_neg h2, dictKeys, List.map_cons, List.nodup_cons]
      exact ⟨not_mem_dictKeys_dictSet rest k k' v h.1 h2, ih h.2⟩

theorem mem_of_dictGet (l : List (κ × α)) (k : κ) (v : α)
    (h : dictGet l k = some v) : (k, v) ∈ l := by
  induction l with
  | nil => simp [dictGet] at h
  | cons q rest ih =>
    obtain ⟨k', w⟩ := q
    by_cases h2 : k = k'
    · subst h2
      rw [dictGet_cons, if_pos rfl] at h
      injection h with h3
      subst h3
      exact List.mem_cons_self _ _
    · rw [dictGet_cons, if_neg h2] at h
      exact List.mem_cons_of_mem _ (ih h)

theorem dictGet_of_mem_nodup (l : List (κ × α)) (k : κ) (v : α)
    (hnd : (dictKeys l).Nodup) (h : (k, v) ∈ l) : dictGet l k = some v := by
  induction l with
  | nil => simp at h
  | cons q rest ih =>
    obtain ⟨k', w⟩ := q
    simp only [dictKeys, List.map_cons, List.nodup_cons] at hnd
    rcases List.mem_cons.mp h with h2 | h2
    · injection h2 with h3 h4
      subst h3
      subst h4
      simp [dictGet]
    · have hk : k ≠ k' := by
        rintro rfl
        exact hnd.1 (by simpa [dictKeys] using List.mem_map_of_mem Prod.fst h2)
      rw [dictGet_cons, if_neg hk]
      exact ih hnd.2 h2

/-- With unique keys, a successful lookup in a filtered dictionary was
already present (with the same value) in the original dictionary, and it
satisfies the filter predicate. -/
theorem dictGet_filter_nodup (l : List (κ × α)) (p : κ × α → Bool) (k : κ) (v : α)
    (hnd : (dictKeys l).Nodup) (h : dictGet (l.filter p) k = some v) :
    dictGet l k = some v ∧ p (k, v) = true := by
  have hmem : (k, v) ∈ l.filter p := mem_of_dictGet _ _ _ h
  have hmem2 := List.mem_of_mem_filter hmem
  exact ⟨dictGet_of_mem_nodup _ _ _ hnd hmem2, List.of_mem_filter hmem⟩

end DictLemmas

theorem dictKeys_filter_nodup {κ α : Type} (l : List (κ × α)) (p : κ × α → Bool)
    (hnd : (dictKeys l).Nodup) : (dictKeys (l.filter p)).Nodup := by
  have : (dictKeys (l.filter p)).Sublist (dictKeys l) :=
    List.Sublist.map Prod.fst (List.filter_sublist l)
  exact this.nodup hnd

/-! ## State-component lemmas for the autosave step -/

@[simp] theorem effSave_classes (b : Backend) (pk : Value) (a : Bool) :
    (effSave b pk a).classes = b.classes := by
  unfold effSave
  split <;> rfl

@[simp] theorem effSave_collections (b : Backend) (pk : Value) (a : Bool) :
    (effSave b pk a).collections = b.collections := by
  unfold effSave
  split <;> rfl

@[simp] theorem effSave_allow (b : Backend) (pk : Value) (a : Bool) :
    (effSave b pk a).allow_documents_in_query = b.allow_documents_in_query := by
  unfold effSave
  split <;> rfl

@[simp] theorem effSave_nextAddr (b : Backend) (pk : Value) (a : Bool) :
    (effSave b pk a).nextAddr = b.nextAddr := by
  unfold effSave
  split <;> rfl

theorem addrsV_effPk (b : Backend) (pk : Value) (a : Bool)
    (h : addrsV pk = []) : addrsV (effPk b pk a) = [] := by
  unfold effPk
  split
  · rfl
  · exact h

/-- For a registered class, `get_collection_for_cls` returns the stored
collection name without changing the backend. -/
theorem get_collection_registered (b : Backend) (cls : DocClass) (ps : Params)
    (c : String) (hreg : dictGet b.classes cls = some ps)
    (hc : ps.collection = some c) :
    get_collection_for_cls b cls = (b, .ok c) := by
  unfold get_collection_for_cls classCollection
  rw [hreg]
  simp [hc]

/-! ## Registry lemmas -/

theorem register_classes_eq (b : Backend) (cls : DocClass) (parameters : Params) :
    (b.register cls parameters).classes =
      dictSet
        (b.classes.filter fun p => decide (p.1 ∉
          ((b.classes.filter fun p2 =>
            decide (p2.2.collection = some (resolveCollectionName cls parameters))).map
              Prod.fst)))
        cls { parameters with collection := some (resolveCollectionName cls parameters) } := rfl

theorem register_collections_eq (b : Backend) (cls : DocClass) (parameters : Params) :
    (b.register cls parameters).collections =
      dictSet b.collections (resolveCollectionName cls parameters) cls := rfl

/-- `register` preserves the well-formedness of the registry and the
forward half of the registry/reverse-index consistency. -/
theorem register_preserves (b : Backend) (cls : DocClass) (parameters : Params)
    (h : registryWf b ∧ registryForwardConsistent b) :
    registryWf (b.register cls parameters) ∧
      registryForwardConsistent (b.register cls parameters) := by
  obtain ⟨⟨hnd, hsome⟩, hfwd⟩ := h
  refine ⟨⟨?_, ?_⟩, ?_⟩
  · rw [register_classes_eq]
    exact dictKeys_dictSet_nodup _ _ _ (dictKeys_filter_nodup _ _ hnd)
  · intro cls' ps' hget
    rw [register_classes_eq] at hget
    by_cases hcc : cls' = cls
    · subst hcc
      rw [dictGet_dictSet_self] at hget
      injection hget with h4
      subst h4
      simp
    · rw [dictGet_dictSet_ne _ _ _ _ hcc] at hget
      obtain ⟨hget2, _⟩ :=
        dictGet_filter_nodup _ _ _ _ hnd hget
      exact hsome _ _ hget2
  · intro cls' ps' c' hget hcol
    rw [register_classes_eq] at hget
    rw [register_collections_eq]
    by_cases hcc : cls' = cls
    · subst hcc
      rw [dictGet_dictSet_self] at hget
      injection hget with h4
      subst h4
      simp only [Option.some.injEq] at hcol
      subst hcol
      rw [dictGet_dictSet_self]
    · rw [dictGet_dictSet_ne _ _ _ _ hcc] at hget
      obtain ⟨hget2, hpred⟩ := dictGet_filter_nodup _ _ _ _ hnd hget
      have hnotdel : cls' ∉
          ((b.classes.filter fun p2 =>
            decide (p2.2.collection = some (resolveCollectionName cls parameters))).map
              Prod.fst) := by
        simpa using hpred
      have hne : c' ≠ resolveCollectionName cls parameters := by
        intro hceq
        apply hnotdel
        have hm : (cls', ps') ∈ b.classes := mem_of_dictGet _ _ _ hget2
        have hmf : (cls', ps') ∈ b.classes.filter fun p2 =>
            decide (p2.2.collection = some (resolveCollectionName cls parameters)) := by
          refine List.mem_filter.mpr ⟨hm, ?_⟩
          simp [hcol, hceq]
        exact List.mem_map_of_mem Prod.fst hmf
      rw [dictGet_dictSet_ne _ _ _ _ hne]
      exact hfwd _ _ _ hget2 hcol

/-- A fresh backend satisfies the registry invariants. -/
theorem init_registry_inv (autoload allow : Bool) :
    registryWf (Backend.init autoload allow) ∧
      registryForwardConsistent (Backend.init autoload allow) := by
  refine ⟨⟨?_, ?_⟩, ?_⟩
  · simp [Backend.init, dictKeys]
  · intro cls ps h
    simp [Backend.init, dictGet] at h
  · intro cls ps c h
    simp [Backend.init, dictGet] at h

/-- Any sequence of registration operations preserves the invariants. -/
theorem applyRegOps_preserves (ops : List RegOp) :
    ∀ b : Backend, registryWf b ∧ registryForwardConsistent b →
      registryWf (applyRegOps b ops) ∧ registryForwardConsistent (applyRegOps b ops) := by
  induction ops with
  | nil =>
    intro b h
    simpa [applyRegOps] using h
  | cons op rest ih =>
    intro b h
    have h1 : registryWf (applyRegOp b op) ∧ registryForwardConsistent (applyRegOp b op) := by
      cases op with
      | reg cls parameters => exact register_preserves _ _ _ h
      | auto cls => exact register_preserves _ _ _ h
    simpa [applyRegOps, List.foldl_cons] using ih _ h1

/-- C3, counterexample.  The claimed mutual consistency of the registry and
the reverse index fails on the code: registering `tClass` under collection
`a` and then re-registering it under collection `b` leaves the orphaned
reverse mapping `a → tClass`, although `tClass`'s resolved collection name
is now `b` — `register` never removes stale entries from
`self.collections`. -/
theorem registry_reverse_index_consistency_refuted :
    ¬ registryConsistent orphanBackend := by
  rintro ⟨_, hback⟩
  obtain ⟨ps, hget, hcol⟩ := hback "a" tClass (by rfl)
  have hps : dictGet orphanBackend.classes tClass = some { collection := some "b" } := by rfl
  rw [hps] at hget
  injection hget with h2
  rw [← h2] at hcol
  exact absurd hcol (by decide)

/-- C3, amended.  After any sequence of `register` / `autoregister` calls
on a fresh backend, the forward half of the claimed invariant holds: every
registered type's resolved collection name maps back to that type in the
reverse index.  The backward half is false (see the counterexample): the
reverse index may retain orphaned entries for a type's previous collection
names, because `register` deletes colliding entries only from
`self.classes`, never from `self.collections`. -/
theorem registry_forward_consistency (autoload allow : Bool) (ops : List RegOp) :
    registryForwardConsistent (applyRegOps (Backend.init autoload allow) ops) :=
  (applyRegOps_preserves ops _ (init_registry_inv autoload allow)).2

/-- Witness for C3's amended theorem: in the orphan scenario itself, the
forward direction does hold — `tClass`'s current collection `b` maps back
to `tClass`. -/
theorem registry_forward_consistency_witness :
    dictGet (applyRegOps (Backend.init true true)
      [.reg tClass (some { collection := some "a" }),
       .reg tClass (some { collection := some "b" })]).collections "b" = some tClass :=
  registry_forward_consistency true true
    [.reg tClass (some { collection := some "a" }),
     .reg tClass (some { collection := some "b" })]
    tClass { collection := some "b" } "b" (by rfl) (by rfl)

/-! ## Encoder application order (C2) -/

/-- C2, counterexample.  With the encoder list
`[(isInt, +1), (isInt, ×2)]` applied to the integer 3, the code produces 8:
the loop does not stop at the first matching pair, so the second encoder is
applied to the already-transformed value 4.  Under the claim — only the
first matching transform applies and no later encoder touches the
transformed value — the result would be the classification of 4, i.e. 4. -/
theorem encoders_first_match_only_refuted :
    (demoBackend.serialize defaultCfg 0 (.int 3) [(isIntV, addOneV), (isIntV, doubleV)]).2 =
      .ok (.int 8) ∧
    applyCodersFirstMatchOnly [(isIntV, addOneV), (isIntV, doubleV)] (.int 3) = .int 4 ∧
    (demoBackend.serialize defaultCfg 0 (.int 3) [(isIntV, addOneV), (isIntV, doubleV)]).2 ≠
      (demoBackend.serialize defaultCfg 0
        (applyCodersFirstMatchOnly [(isIntV, addOneV), (isIntV, doubleV)] (.int 3)) []).2 := by
  refine ⟨rfl, rfl, ?_⟩
  intro h
  have e1 : (demoBackend.serialize defaultCfg 0 (.int 3)
      [(isIntV, addOneV), (isIntV, doubleV)]).2 = .ok (.int 8) := rfl
  have e2 : (demoBackend.serialize defaultCfg 0
      (applyCodersFirstMatchOnly [(isIntV, addOneV), (isIntV, doubleV)] (.int 3)) []).2 =
      .ok (.int 4) := rfl
  rw [e1, e2] at h
  injection h with h2
  injection h2 with h3
  norm_num at h3

/-- C2, amended.  The encoder pairs are checked in order against the
current value, and every matching pair's transform is applied: after the
head pair is processed (its transform applied exactly when its predicate
matches), the remaining encoders are applied to the resulting — possibly
already transformed — value before the serialization rules classify it.
The loop does not stop at the first match. -/
theorem encoders_apply_cumulatively (b : Backend) (cfg : SCfg) (lvl : Nat)
    (obj : Value) (m : Value → Bool) (e : Value → Value)
    (rest : List ((Value → Bool) × (Value → Value))) :
    b.serialize cfg lvl obj ((m, e) :: rest) =
      b.serialize cfg lvl (if m obj then e obj else obj) rest := by
  unfold Backend.serialize applyCoders
  rw [List.foldl_cons]

/-! ## Deepcopy lemmas: value preservation and address freshness -/

mutual

theorem stripV_deepcopyV (n : Nat) (v : Value) :
    stripV (deepcopyV n v).1 = stripV v := by
  cases v with
  | null => rfl
  | boolean b => rfl
  | int m => rfl
  | str s => rfl
  | dict a es =>
    rcases hE : deepcopyEntries (n + 1) es with ⟨es', n'⟩
    have h1 := stripEntries_deepcopyEntries (n + 1) es
    rw [hE] at h1
    simp [deepcopyV, hE, stripV, h1]
  | vlist a xs =>
    rcases hE : deepcopyElems (n + 1) xs with ⟨xs', n'⟩
    have h1 := stripElems_deepcopyElems (n + 1) xs
    rw [hE] at h1
    simp [deepcopyV, hE, stripV, h1]
  | tup xs =>
    rcases hE : deepcopyElems n xs with ⟨xs', n'⟩
    have h1 := stripElems_deepcopyElems n xs
    rw [hE] at h1
    simp [deepcopyV, hE, stripV, h1]
  | doc cls pk lz em attrs lattrs eager pkN embS =>
    rcases h1 : deepcopyV n pk with ⟨pk', n1⟩
    rcases h2 : deepcopyEntries n1 attrs with ⟨attrs', n2⟩
    rcases h3 : deepcopyEntries n2 lattrs with ⟨lattrs', n3⟩
    rcases h4 : deepcopyOptEntries n3 eager with ⟨eager', n4⟩
    rcases h5 : deepcopyV n4 embS with ⟨embS', n5⟩
    have g1 := stripV_deepcopyV n pk
    have g2 := stripEntries_deepcopyEntries n1 attrs
    have g3 := stripEntries_deepcopyEntries n2 lattrs
    have g4 := stripOptEntries_deepcopyOptEntries n3 eager
    have g5 := stripV_deepcopyV n4 embS
    rw [h1] at g1
    rw [h2] at g2
    rw [h3] at g3
    rw [h4] at g4
    rw [h5] at g5
    simp [deepcopyV, h1, h2, h3, h4, h5, stripV, g1, g2, g3, g4, g5]

theorem stripEntries_deepcopyEntries (n : Nat) (es : List (String × Value)) :
    stripEntries (deepcopyEntries n es).1 = stripEntries es := by
  cases es with
  | nil => rfl
  | cons p rest =>
    obtain ⟨k, v⟩ := p
    rcases h1 : deepcopyV n v with ⟨v', n1⟩
    rcases h2 : deepcopyEntries n1 rest with ⟨rest', n2⟩
    have g1 := stripV_deepcopyV n v
    have g2 := stripEntries_deepcopyEntries n1 rest
    rw [h1] at g1
    rw [h2] at g2
    simp [deepcopyEntries, h1, h2, stripEntries, g1, g2]

theorem stripElems_deepcopyElems (n : Nat) (xs : List Value) :
    stripElems (deepcopyElems n xs).1 = stripElems xs := by
  cases xs with
  | nil => rfl
  | cons v rest =>
    rcases h1 : deepcopyV n v with ⟨v', n1⟩
    rcases h2 : deepcopyElems n1 rest with ⟨rest', n2⟩
    have g1 := stripV_deepcopyV n v
    have g2 := stripElems_deepcopyElems n1 rest
    rw [h1] at g1
    rw [h2] at g2
    simp [deepcopyElems, h1, h2, stripElems, g1, g2]

theorem stripOptEntries_deepcopyOptEntries (n : Nat)
    (o : Option (List (String × Value))) :
    stripOptEntries (deepcopyOptEntries n o).1 = stripOptEntries o := by
  cases o with
  | none => rfl
  | some es =>
    rcases h1 : deepcopyEntries n es with ⟨es', n'⟩
    have g1 := stripEntries_deepcopyEntries n es
    rw [h1] at g1
    simp [deepcopyOptEntries, h1, stripOptEntries, g1]

end

mutual

theorem deepcopyV_fresh (n : Nat) (v : Value) :
    n ≤ (deepcopyV n v).2 ∧ ∀ a ∈ addrsV (deepcopyV n v).1, n ≤ a := by
  cases v with
  | null => exact ⟨le_refl n, by simp [deepcopyV, addrsV]⟩
  | boolean b => exact ⟨le_refl n, by simp [deepcopyV, addrsV]⟩
  | int m => exact ⟨le_refl n, by simp [deepcopyV, addrsV]⟩
  | str s => exact ⟨le_refl n, by simp [deepcopyV, addrsV]⟩
  | dict a es =>
    rcases hE : deepcopyEntries (n + 1) es with ⟨es', n'⟩
    have h1 := deepcopyEntries_fresh (n + 1) es
    rw [hE] at h1
    refine ⟨?_, ?_⟩
    · simp only [deepcopyV, hE]
      omega
    · simp only [deepcopyV, hE, addrsV, List.mem_cons]
      rintro a2 (rfl | h2)
      · exact le_rfl
      · exact le_trans (Nat.le_succ _) (h1.2 a2 h2)
  | vlist a xs =>
    rcases hE : deepcopyElems (n + 1) xs with ⟨xs', n'⟩
    have h1 := deepcopyElems_fresh (n + 1) xs
    rw [hE] at h1
    refine ⟨?_, ?_⟩
    · simp only [deepcopyV, hE]
      omega
    · simp only [deepcopyV, hE, addrsV, List.mem_cons]
      rintro a2 (rfl | h2)
      · exact le_rfl
      · exact le_trans (Nat.le_succ _) (h1.2 a2 h2)
  | tup xs =>
    rcases hE : deepcopyElems n xs with ⟨xs', n'⟩
    have h1 := deepcopyElems_fresh n xs
    rw [hE] at h1
    exact ⟨by simpa [deepcopyV, hE] using h1.1,
      by simpa [deepcopyV, hE, addrsV] using h1.2⟩
  | doc cls pk lz em attrs lattrs eager pkN embS =>
    rcases h1 : deepcopyV n pk with ⟨pk', n1⟩
    rcases h2 : deepcopyEntries n1 attrs with ⟨attrs', n2⟩
    rcases h3 : deepcopyEntries n2 lattrs with ⟨lattrs', n3⟩
    rcases h4 : deepcopyOptEntries n3 eager with ⟨eager', n4⟩
    rcases h5 : deepcopyV n4 embS with ⟨embS', n5⟩
    have g1 := deepcopyV_fresh n pk
    have g2 := deepcopyEntries_fresh n1 attrs
    have g3 := deepcopyEntries_fresh n2 lattrs
    have g4 := deepcopyOptEntries_fresh n3 eager
    have g5 := deepcopyV_fresh n4 embS
    rw [h1] at g1
    rw [h2] at g2
    rw [h3] at g3
    rw [h4] at g4
    rw [h5] at g5
    refine ⟨?_, ?_⟩
    · simp only [deepcopyV, h1, h2, h3, h4, h5]
      omega
    · simp only [deepcopyV, h1, h2, h3, h4, h5, addrsV, List.mem_append]
      rintro a (((( ha | ha) | ha) | ha) | ha)
      · exact g1.2 a ha
      · exact le_trans g1.1 (g2.2 a ha)
      · exact le_trans g1.1 (le_trans g2.1 (g3.2 a ha))
      · exact le_trans g1.1 (le_trans g2.1 (le_trans g3.1 (g4.2 a ha)))
      · exact le_trans g1.1 (le_trans g2.1 (le_trans g3.1 (le_trans g4.1 (g5.2 a ha))))

theorem deepcopyEntries_fresh (n : Nat) (es : List (String × Value)) :
    n ≤ (deepcopyEntries n es).2 ∧ ∀ a ∈ addrsEntries (deepcopyEntries n es).1, n ≤ a := by
  cases es with
  | nil => exact ⟨le_refl n, by simp [deepcopyEntries, addrsEntries]⟩
  | cons p rest =>
    obtain ⟨k, v⟩ := p
    rcases h1 : deepcopyV n v with ⟨v', n1⟩
    rcases h2 : deepcopyEntries n1 rest with ⟨rest', n2⟩
    have g1 := deepcopyV_fresh n v
    have g2 := deepcopyEntries_fresh n1 rest
    rw [h1] at g1
    rw [h2] at g2
    refine ⟨?_, ?_⟩
    · simp only [deepcopyEntries, h1, h2]
      exact le_trans g1.1 g2.1
    · simp only [deepcopyEntries, h1, h2, addrsEntries, List.mem_append]
      rintro a (ha | ha)
      · exact g1.2 a ha
      · exact le_trans g1.1 (g2.2 a ha)

theorem deepcopyElems_fresh (n : Nat) (xs : List Value) :
    n ≤ (deepcopyElems n xs).2 ∧ ∀ a ∈ addrsElems (deepcopyElems n xs).1, n ≤ a := by
  cases xs with
  | nil => exact ⟨le_refl n, by simp [deepcopyElems, addrsElems]⟩
  | cons v rest =>
    rcases h1 : deepcopyV n v with ⟨v', n1⟩
    rcases h2 : deepcopyElems n1 rest with ⟨rest', n2⟩
    have g1 := deepcopyV_fresh n v
    have g2 := deepcopyElems_fresh n1 rest
    rw [h1] at g1
    rw [h2] at g2
    refine ⟨?_, ?_⟩
    · simp only [deepcopyElems, h1, h2]
      exact le_trans g1.1 g2.1
    · simp only [deepcopyElems, h1, h2, addrsElems, List.mem_append]
      rintro a (ha | ha)
      · exact g1.2 a ha
      · exact le_trans g1.1 (g2.2 a ha)

theorem deepcopyOptEntries_fresh (n : Nat) (o : Option (List (String × Value))) :
    n ≤ (deepcopyOptEntries n o).2 ∧
      ∀ a ∈ addrsOptEntries (deepcopyOptEntries n o).1, n ≤ a := by
  cases o with
  | none => exact ⟨le_refl n, by simp [deepcopyOptEntries, addrsOptEntries]⟩
  | some es =>
    rcases h1 : deepcopyEntries n es with ⟨es', n'⟩
    have g1 := deepcopyEntries_fresh n es
    rw [h1] at g1
    exact ⟨by simpa [deepcopyOptEntries, h1] using g1.1,
      by simpa [deepcopyOptEntries, h1, addrsOptEntries] using g1.2⟩

end

/-! ## Address-erasure and address-collection lemmas for dictionary
operations -/

theorem stripEntries_dictDel (l : List (String × Value)) (k : String) :
    stripEntries (dictDel l k) = dictDel (stripEntries l) k := by
  induction l with
  | nil => rfl
  | cons p rest ih =>
    obtain ⟨k', v⟩ := p
    by_cases h : k' = k
    · simp [dictDel, stripEntries, h, ih]
    · simp [dictDel, stripEntries, h, ih]

theorem dictGet_stripEntries (l : List (String × Value)) (k : String) :
    dictGet (stripEntries l) k = (dictGet l k).map stripV := by
  induction l with
  | nil => rfl
  | cons p rest ih =>
    obtain ⟨k', v⟩ := p
    by_cases h : k = k'
    · simp [stripEntries, dictGet, h]
    · simp [stripEntries, dictGet, h, ih]

theorem addrsEntries_dictDel_sub (l : List (String × Value)) (k : String) :
    ∀ a ∈ addrsEntries (dictDel l k), a ∈ addrsEntries l := by
  induction l with
  | nil => simp [dictDel]
  | cons p rest ih =>
    obtain ⟨k', v⟩ := p
    intro a ha
    by_cases h : k' = k
    · rw [dictDel, if_pos h] at ha
      simp only [addrsEntries, List.mem_append]
      exact Or.inr (ih a ha)
    · rw [dictDel, if_neg h] at ha
      simp only [addrsEntries, List.mem_append] at ha ⊢
      rcases ha with ha | ha
      · exact Or.inl ha
      · exact Or.inr (ih a ha)

theorem addrsEntries_dictSet_sub (l : List (String × Value)) (k : String) (v : Value) :
    ∀ a ∈ addrsEntries (dictSet l k v), a ∈ addrsV v ∨ a ∈ addrsEntries l := by
  induction l with
  | nil =>
    intro a ha
    simp only [dictSet, addrsEntries, List.append_nil] at ha
    exact Or.inl (by simpa using ha)
  | cons p rest ih =>
    obtain ⟨k', w⟩ := p
    intro a ha
    by_cases h : k' = k
    · rw [dictSet, if_pos h] at ha
      simp only [addrsEntries, List.mem_append] at ha ⊢
      rcases ha with ha | ha
      · exact Or.inl ha
      · exact Or.inr (Or.inr ha)
    · rw [dictSet, if_neg h] at ha
      simp only [addrsEntries, List.mem_append] at ha ⊢
      rcases ha with ha | ha
      · exact Or.inr (Or.inl ha)
      · rcases ih a ha with h2 | h2
        · exact Or.inl h2
        · exact Or.inr (Or.inr h2)

/-! ## Resolution of dotted include paths -/

theorem getPath_cases (fr : List String) : ∀ v : Value,
    (∃ w, getPath v fr = .ok w) ∨ (∃ m, getPath v fr = .error (.keyError m)) ∨
      (∃ m, getPath v fr = .error (.typeError m)) := by
  induction fr with
  | nil => exact fun v => Or.inl ⟨v, by cases v <;> rfl⟩
  | cons f rest ih =>
    intro v
    cases v with
    | dict a es =>
      cases hg : dictGet es f with
      | some w => simpa [getPath, hg] using ih w
      | none => exact Or.inr (Or.inl ⟨f, by simp [getPath, hg]⟩)
    | null => exact Or.inr (Or.inr ⟨_, rfl⟩)
    | boolean b => exact Or.inr (Or.inr ⟨_, rfl⟩)
    | int m => exact Or.inr (Or.inr ⟨_, rfl⟩)
    | str s => exact Or.inr (Or.inr ⟨_, rfl⟩)
    | vlist a xs => exact Or.inr (Or.inr ⟨_, rfl⟩)
    | tup xs => exact Or.inr (Or.inr ⟨_, rfl⟩)
    | doc cls pk lz em attrs lattrs eager pkN embS => exact Or.inr (Or.inr ⟨_, rfl⟩)

theorem get_value_cases (attrs : List (String × Value)) (key : String) :
    (∃ w, get_value attrs key = .ok w) ∨
      (∃ m, get_value attrs key = .error (.keyError m)) ∨
      (∃ m, get_value attrs key = .error (.typeError m)) := by
  unfold get_value
  cases hs : splitDots key with
  | nil => exact Or.inr (Or.inl ⟨key, rfl⟩)
  | cons f rest =>
    cases hg : dictGet attrs f with
    | some v => simpa [hg] using getPath_cases rest v
    | none => exact Or.inr (Or.inl ⟨f, by simp [hg]⟩)

theorem addIncludes_ok_of_all_safe (attrs : List (String × Value)) (ks : List String) :
    ∀ acc, (∀ k ∈ ks, isTypeErr (get_value attrs k) = false) →
      ∃ es, addIncludes attrs ks acc = .ok es := by
  induction ks with
  | nil => exact fun acc _ => ⟨acc, rfl⟩
  | cons k rest ih =>
    intro acc h
    have hk := h k (List.mem_cons_self _ _)
    have htail : ∀ k2 ∈ rest, isTypeErr (get_value attrs k2) = false :=
      fun k2 h2 => h k2 (List.mem_cons_of_mem _ h2)
    rcases get_value_cases attrs k with ⟨w, hw⟩ | ⟨m, hm⟩ | ⟨m, hm⟩
    · simpa only [addIncludes, hw] using ih _ htail
    · simpa only [addIncludes, hm] using ih _ htail
    · rw [hm] at hk
      simp [isTypeErr] at hk

theorem addIncludes_get_not_mem (attrs : List (String × Value)) (ks : List String) :
    ∀ acc es key', addIncludes attrs ks acc = .ok es →
      key' ∉ ks.map underscoreKey → dictGet es key' = dictGet acc key' := by
  induction ks with
  | nil =>
    intro acc es key' h _
    simp only [addIncludes] at h
    injection h with h2
    rw [← h2]
  | cons k rest ih =>
    intro acc es key' h hm
    simp only [List.map_cons, List.mem_cons, not_or] at hm
    obtain ⟨hm1, hm2⟩ := hm
    rcases get_value_cases attrs k with ⟨w, hw⟩ | ⟨m, hmk⟩ | ⟨m, hmk⟩
    · simp only [addIncludes, hw] at h
      rw [ih _ _ _ h hm2, dictGet_dictSet_ne _ _ _ _ hm1]
    · simp only [addIncludes, hmk] at h
      exact ih _ _ _ h hm2
    · simp only [addIncludes, hmk] at h
      exact absurd h (by simp)

theorem addIncludes_get_mem (attrs : List (String × Value)) (ks : List String) :
    ∀ acc es k, addIncludes attrs ks acc = .ok es → k ∈ ks →
      (ks.map underscoreKey).Nodup →
      (∀ v, get_value attrs k = .ok v → dictGet es (underscoreKey k) = some v) ∧
      (∀ m, get_value attrs k = .error (.keyError m) →
        dictGet es (underscoreKey k) = dictGet acc (underscoreKey k)) := by
  induction ks with
  | nil =>
    intro _ _ _ _ hmem
    simp at hmem
  | cons k' rest ih =>
    intro acc es k h hmem hnd
    simp only [List.map_cons, List.nodup_cons] at hnd
    obtain ⟨hnd1, hnd2⟩ := hnd
    rcases List.mem_cons.mp hmem with rfl | hmem2
    · constructor
      · intro v hv
        simp only [addIncludes, hv] at h
        rw [addIncludes_get_not_mem attrs rest _ es (underscoreKey k) h hnd1,
          dictGet_dictSet_self]
      · intro m hm
        simp only [addIncludes, hm] at h
        exact addIncludes_get_not_mem attrs rest acc es (underscoreKey k) h hnd1
    · have hneq : underscoreKey k ≠ underscoreKey k' := by
        intro hEq
        exact hnd1 (hEq ▸ List.mem_map_of_mem underscoreKey hmem2)
      rcases get_value_cases attrs k' with ⟨w, hw⟩ | ⟨m, hmk⟩ | ⟨m, hmk⟩
      · simp only [addIncludes, hw] at h
        have hres := ih _ _ _ h hmem2 hnd2
        refine ⟨hres.1, fun m2 hm2 => ?_⟩
        rw [hres.2 m2 hm2, dictGet_dictSet_ne _ _ _ _ hneq]
      · simp only [addIncludes, hmk] at h
        exact ih _ _ _ h hmem2 hnd2
      · simp only [addIncludes, hmk] at h
        exact absurd h (by simp)

theorem addIncludes_error_of_typeErr (attrs : List (String × Value)) (ks : List String) :
    ∀ acc, (∃ k ∈ ks, isTypeErr (get_value attrs k) = true) →
      ∃ m, addIncludes attrs ks acc = .error (.typeError m) := by
  induction ks with
  | nil =>
    intro acc h
    simp at h
  | cons k' rest ih =>
    rintro acc ⟨k, hmem, hty⟩
    rcases get_value_cases attrs k' with ⟨w, hw⟩ | ⟨m, hm⟩ | ⟨m, hm⟩
    · rcases List.mem_cons.mp hmem with rfl | hmem2
      · rw [hw] at hty
        simp [isTypeErr] at hty
      · simpa only [addIncludes, hw] using ih _ ⟨k, hmem2, hty⟩
    · rcases List.mem_cons.mp hmem with rfl | hmem2
      · rw [hm] at hty
        simp [isTypeErr] at hty
      · simpa only [addIncludes, hm] using ih _ ⟨k, hmem2, hty⟩
    · exact ⟨m, by simp [addIncludes, hm]⟩

/-! ## Branch characterizations of the serializer's document case -/

theorem serializeV_doc_query_error (cfg : SCfg) (b : Backend) (cls : DocClass)
    (pk : Value) (attrs lattrs : List (String × Value))
    (eager : Option (List (String × Value))) (pkN : String) (embS : Value)
    (ps : Params) (c : String)
    (hreg : dictGet b.classes cls = some ps) (hc : ps.collection = some c)
    (hq : cfg.for_query = true) (hallow : b.allow_documents_in_query = false) :
    serializeV cfg b 0 (.doc cls pk false false attrs lattrs eager pkN embS) =
      (effSave b pk cfg.autosave,
        .error (.valueError "Documents are not allowed in queries!")) := by
  have hgc := get_collection_registered b cls ps c hreg hc
  simp only [serializeV, hgc]
  simp [hq, hallow]

theorem serializeV_doc_stub (cfg : SCfg) (b : Backend) (cls : DocClass)
    (pk : Value) (attrs lattrs : List (String × Value))
    (eager : Option (List (String × Value))) (pkN : String) (embS : Value)
    (ps : Params) (c : String) (es : List (String × Value))
    (hreg : dictGet b.classes cls = some ps) (hc : ps.collection = some c)
    (hnq : cfg.for_query = false ∨ b.allow_documents_in_query = true)
    (hes : buildRefStub cls (effPk b pk cfg.autosave) attrs c = .ok es) :
    serializeV cfg b 0 (.doc cls pk false false attrs lattrs eager pkN embS) =
      ({ effSave b pk cfg.autosave with nextAddr := b.nextAddr + 1 },
        .ok (.dict b.nextAddr es)) := by
  have hgc := get_collection_registered b cls ps c hreg hc
  have hgate : (cfg.for_query && !(effSave b pk cfg.autosave).allow_documents_in_query) = false := by
    rcases hnq with h | h <;> simp [h]
  have hcc : classCollection (effSave b pk cfg.autosave) cls = some c := by
    simp [classCollection, hreg, hc]
  simp only [serializeV, hgc]
  simp [hgate, hcc, hes]
  intro hfq
  rcases hnq with h | h
  · exact absurd hfq (by simp [h])
  · exact h

theorem serializeV_doc_stub_error (cfg : SCfg) (b : Backend) (cls : DocClass)
    (pk : Value) (attrs lattrs : List (String × Value))
    (eager : Option (List (String × Value))) (pkN : String) (embS : Value)
    (ps : Params) (c : String) (e : SErr)
    (hreg : dictGet b.classes cls = some ps) (hc : ps.collection = some c)
    (hnq : cfg.for_query = false ∨ b.allow_documents_in_query = true)
    (hes : buildRefStub cls (effPk b pk cfg.autosave) attrs c = .error e) :
    serializeV cfg b 0 (.doc cls pk false false attrs lattrs eager pkN embS) =
      (effSave b pk cfg.autosave, .error e) := by
  have hgc := get_collection_registered b cls ps c hreg hc
  have hgate : (cfg.for_query && !(effSave b pk cfg.autosave).allow_documents_in_query) = false := by
    rcases hnq with h | h <;> simp [h]
  have hcc : classCollection (effSave b pk cfg.autosave) cls = some c := by
    simp [classCollection, hreg, hc]
  simp only [serializeV, hgc]
  simp [hgate, hcc, hes]
  intro hfq hal
  rcases hnq with h | h
  · exact absurd hfq (by simp [h])
  · exact absurd hal (by simp [h])

theorem serializeV_doc_lazy (cfg : SCfg) (b : Backend) (cls : DocClass)
    (pk : Value) (attrs lattrs : List (String × Value))
    (eager : Option (List (String × Value))) (pkN : String) (embS : Value)
    (ps : Params) (c : String)
    (hreg : dictGet b.classes cls = some ps) (hc : ps.collection = some c) :
    serializeV cfg b 0 (.doc cls pk true false attrs lattrs eager pkN embS) =
      ({ effSave b pk cfg.autosave with
          nextAddr := (deepcopyEntries b.nextAddr lattrs).2 + 1 },
        .ok (.dict (deepcopyEntries b.nextAddr lattrs).2
          (dictSet (dictSet (dictDel (deepcopyEntries b.nextAddr lattrs).1 pkN)
            "pk" (effPk b pk cfg.autosave)) "__collection__" (.str c)))) := by
  have hgc := get_collection_registered b cls ps c hreg hc
  have hcc : classCollection (effSave b pk cfg.autosave) cls = some c := by
    simp [classCollection, hreg, hc]
  rcases hE : deepcopyEntries b.nextAddr lattrs with ⟨cp, n1⟩
  simp only [serializeV, hgc]
  simp [hcc, effSave_nextAddr, hE]

/-! ## Query-mode restriction (C4) and the non-atomic autosave (C10) -/

/-- C4.  Serializing a non-lazy document whose `embed` flag is false, with
`embed_level=0` and `for_query=true`: when documents are disallowed in
queries the call fails with the query-restriction error
(`QueryDocumentNotAllowed`, raised as `ValueError("Documents are not
allowed in queries!")`); when they are allowed, the same call succeeds and
produces the reference stub `{pk, __collection__}` extended with the
configured reference-include fields (`buildRefStub`). -/
theorem query_document_gate (ckts auto : Bool) (b : Backend) (cls : DocClass)
    (pk : Value) (attrs lattrs : List (String × Value))
    (eager : Option (List (String × Value))) (pkN : String) (embS : Value)
    (ps : Params) (c : String) (es : List (String × Value))
    (hreg : dictGet b.classes cls = some ps) (hc : ps.collection = some c)
    (hes : buildRefStub cls (effPk b pk auto) attrs c = .ok es) :
    (b.allow_documents_in_query = false →
      b.serialize ⟨ckts, auto, true⟩ 0
          (.doc cls pk false false attrs lattrs eager pkN embS) [] =
        (effSave b pk auto,
          .error (.valueError "Documents are not allowed in queries!"))) ∧
    (b.allow_documents_in_query = true →
      b.serialize ⟨ckts, auto, true⟩ 0
          (.doc cls pk false false attrs lattrs eager pkN embS) [] =
        ({ effSave b pk auto with nextAddr := b.nextAddr + 1 },
          .ok (.dict b.nextAddr es))) := by
  constructor
  · intro hallow
    exact serializeV_doc_query_error ⟨ckts, auto, true⟩ b cls pk attrs lattrs
      eager pkN embS ps c hreg hc rfl hallow
  · intro hallow
    exact serializeV_doc_stub ⟨ckts, auto, true⟩ b cls pk attrs lattrs
      eager pkN embS ps c es hreg hc (Or.inr hallow) hes

/-- Witness for C4: the eager `Book` document with primary key 7 serialized
for a query against the backend that disallows documents in queries (the
success branch is instantiated vacuously on this backend; the error branch
fires). -/
theorem query_document_gate_witness :
    (strictBackend.allow_documents_in_query = false →
      strictBackend.serialize ⟨false, true, true⟩ 0
          (.doc bookClass (.int 7) false false [("name", .str "x")] [] none "pk" .null) [] =
        (effSave strictBackend (.int 7) true,
          .error (.valueError "Documents are not allowed in queries!"))) ∧
    (strictBackend.allow_documents_in_query = true →
      strictBackend.serialize ⟨false, true, true⟩ 0
          (.doc bookClass (.int 7) false false [("name", .str "x")] [] none "pk" .null) [] =
        ({ effSave strictBackend (.int 7) true with
            nextAddr := strictBackend.nextAddr + 1 },
          .ok (.dict strictBackend.nextAddr
            [("pk", .int 7), ("__collection__", .str "book")]))) :=
  query_document_gate false true strictBackend bookClass (.int 7)
    [("name", .str "x")] [] none "pk" .null { collection := some "book" } "book"
    [("pk", .int 7), ("__collection__", .str "book")] rfl rfl rfl

/-- C10.  With a null primary key, `autosave=true`, `for_query=true` and
documents disallowed in queries, the save side effect happens before the
query-restriction error is raised: the returned state records one more
`save` call (and one consumed primary key) even though the call fails, so
the failure is not atomic. -/
theorem autosave_before_query_error (ckts : Bool) (b : Backend) (cls : DocClass)
    (attrs lattrs : List (String × Value)) (eager : Option (List (String × Value)))
    (pkN : String) (embS : Value) (ps : Params) (c : String)
    (hreg : dictGet b.classes cls = some ps) (hc : ps.collection = some c)
    (hallow : b.allow_documents_in_query = false) :
    b.serialize ⟨ckts, true, true⟩ 0
        (.doc cls .null false false attrs lattrs eager pkN embS) [] =
      ({ b with nextPk := b.nextPk + 1, savedCount := b.savedCount + 1 },
        .error (.valueError "Documents are not allowed in queries!")) ∧
    (b.serialize ⟨ckts, true, true⟩ 0
        (.doc cls .null false false attrs lattrs eager pkN embS) []).1.savedCount =
      b.savedCount + 1 := by
  have h1 := serializeV_doc_query_error ⟨ckts, true, true⟩ b cls .null attrs lattrs
    eager pkN embS ps c hreg hc rfl hallow
  have h2 : effSave b (.null) true =
      { b with nextPk := b.nextPk + 1, savedCount := b.savedCount + 1 } := by
    simp [effSave, Value.isNull]
  constructor
  · show serializeV ⟨ckts, true, true⟩ b 0
        (.doc cls .null false false attrs lattrs eager pkN embS) = _
    rw [h1, h2]
  · show (serializeV ⟨ckts, true, true⟩ b 0
        (.doc cls .null false false attrs lattrs eager pkN embS)).1.savedCount = _
    rw [h1, h2]

/-- Witness for C10: serializing the keyless `Book` document for a query
on the strict backend fails, yet the resulting state shows the autosave
happened. -/
theorem autosave_before_query_error_witness :
    strictBackend.serialize ⟨false, true, true⟩ 0
        (.doc bookClass .null false false [("name", .str "k")] [] none "pk" .null) [] =
      ({ strictBackend with
          nextPk := strictBackend.nextPk + 1
          savedCount := strictBackend.savedCount + 1 },
        .error (.valueError "Documents are not allowed in queries!")) ∧
    (strictBackend.serialize ⟨false, true, true⟩ 0
        (.doc bookClass .null false false [("name", .str "k")] [] none "pk" .null) []).1.savedCount =
      strictBackend.savedCount + 1 :=
  autosave_before_query_error false strictBackend bookClass
    [("name", .str "k")] [] none "pk" .null { collection := some "book" } "book"
    rfl rfl rfl

/-! ## Embedding depth and the DoesNotExist fallback (C5) -/

/-- C5.  With `embed_level > 0`, the serializer embeds the document: it
serializes the eager attributes with the level decremented by one, and when
the eager fetch fails with `DoesNotExist` (`eagerResult = none`) it falls
back — only in this embedding path — to serializing the locally known
attributes at the decremented level instead of propagating the error.  (The
fetch outcome is the only source of `DoesNotExist` in the serializer, and
the error type of `serializeV` has no `DoesNotExist` case: the exception
cannot escape the serializer.) -/
theorem embed_level_decrement_and_fallback (cfg : SCfg) (b : Backend) (lvl : Nat)
    (cls : DocClass) (pk : Value) (lz em : Bool)
    (attrs lattrs : List (String × Value)) (eager : Option (List (String × Value)))
    (pkN : String) (embS : Value) (ps : Params) (c : String)
    (hreg : dictGet b.classes cls = some ps) (hc : ps.collection = some c)
    (hlvl : 0 < lvl) :
    (∀ ea, eager = some ea →
      serializeV cfg b lvl (.doc cls pk lz em attrs lattrs eager pkN embS) =
        finishDict (serializeEntries cfg b (lvl - 1) ea)) ∧
    (eager = none →
      serializeV cfg b lvl (.doc cls pk lz em attrs lattrs eager pkN embS) =
        finishDict (serializeEntries cfg b (lvl - 1) attrs)) := by
  have hgc := get_collection_registered b cls ps c hreg hc
  constructor
  · rintro ea rfl
    simp only [serializeV, hgc]
    simp [hlvl]
  · rintro rfl
    simp only [serializeV, hgc]
    simp [hlvl]

/-- Witness for C5: embedding a `Book` document at `embed_level = 1` whose
eager fetch succeeds serializes the fetched attributes at level 0. -/
theorem embed_level_decrement_and_fallback_witness :
    serializeV defaultCfg demoBackend 1
        (.doc bookClass (.int 7) false false [("name", .str "x")]
          [] (some [("name", .str "x"), ("extra", .int 2)]) "pk" .null) =
      finishDict (serializeEntries defaultCfg demoBackend 0
        [("name", .str "x"), ("extra", .int 2)]) :=
  (embed_level_decrement_and_fallback defaultCfg demoBackend 1 bookClass (.int 7)
    false false [("name", .str "x")] []
    (some [("name", .str "x"), ("extra", .int 2)]) "pk" .null
    { collection := some "book" } "book" rfl rfl (by decide)).1
    [("name", .str "x"), ("extra", .int 2)] rfl

/-! ## Reference-include field resolution (C6) -/

/-- C6, counterexample.  The include path `a.b` is absent on the `Item`
document (its attribute `a` is the integer 5, so the path does not
resolve), yet serialization does not silently skip it: subscripting the
non-dictionary intermediate value raises `TypeError`, which is not caught
— only `KeyError` is — and the whole `serialize` call fails instead of
omitting the key. -/
theorem include_missing_path_skipped_refuted :
    get_value [("a", .int 5)] "a.b" =
      .error (.typeError "object is not subscriptable") ∧
    (demoBackend.serialize defaultCfg 0 itemDoc []).2 =
      .error (.typeError "object is not subscriptable") :=
  ⟨rfl, rfl⟩

/-- C6, amended.  When the reference stub of a non-lazy document is built,
each declared include path is resolved against the instance's attributes:
a path that resolves is stored in the stub under the path with dots
replaced by underscores; a path whose resolution fails with a *missing
key* (`KeyError`) is silently skipped and its key is omitted, with no
error raised.  But a path whose resolution subscripts a present,
non-mapping intermediate value raises `TypeError`, which propagates and
makes the whole `serialize` call fail. -/
theorem include_paths_resolution (ckts auto : Bool) (b : Backend) (cls : DocClass)
    (pk : Value) (attrs lattrs : List (String × Value))
    (eager : Option (List (String × Value))) (pkN : String) (embS : Value)
    (ps : Params) (c : String)
    (hreg : dictGet b.classes cls = some ps) (hc : ps.collection = some c)
    (hnd : (cls.dbref_includes.map underscoreKey).Nodup)
    (hsane : ∀ k ∈ cls.dbref_includes,
      underscoreKey k ≠ "pk" ∧ underscoreKey k ≠ "__collection__") :
    ((∀ k ∈ cls.dbref_includes, isTypeErr (get_value attrs k) = false) →
      ∃ es, b.serialize ⟨ckts, auto, false⟩ 0
          (.doc cls pk false false attrs lattrs eager pkN embS) [] =
        ({ effSave b pk auto with nextAddr := b.nextAddr + 1 },
          .ok (.dict b.nextAddr es)) ∧
        ∀ k ∈ cls.dbref_includes,
          (∀ v, get_value attrs k = .ok v →
            dictGet es (underscoreKey k) = some v) ∧
          (∀ m, get_value attrs k = .error (.keyError m) →
            dictGet es (underscoreKey k) = none)) ∧
    ((∃ k ∈ cls.dbref_includes, isTypeErr (get_value attrs k) = true) →
      ∃ m, b.serialize ⟨ckts, auto, false⟩ 0
          (.doc cls pk false false attrs lattrs eager pkN embS) [] =
        (effSave b pk auto, .error (.typeError m))) := by
  constructor
  · intro hsafe
    by_cases hE : cls.dbref_includes.isEmpty
    · have hnil : cls.dbref_includes = [] := List.isEmpty_iff.mp hE
      refine ⟨[("pk", effPk b pk auto), ("__collection__", .str c)], ?_, ?_⟩
      · refine serializeV_doc_stub ⟨ckts, auto, false⟩ b cls pk attrs lattrs
          eager pkN embS ps c _ hreg hc (Or.inl rfl) ?_
        unfold buildRefStub
        rw [if_pos hE]
      · intro k hk
        rw [hnil] at hk
        simp at hk
    · obtain ⟨es, hes⟩ :=
        addIncludes_ok_of_all_safe attrs cls.dbref_includes
          [("pk", effPk b pk auto), ("__collection__", .str c)] hsafe
      have hstub : buildRefStub cls (effPk b pk auto) attrs c = .ok es := by
        unfold buildRefStub
        rw [if_neg hE]
        exact hes
      refine ⟨es, serializeV_doc_stub ⟨ckts, auto, false⟩ b cls pk attrs lattrs
        eager pkN embS ps c es hreg hc (Or.inl rfl) hstub, ?_⟩
      intro k hk
      have hmem := addIncludes_get_mem attrs cls.dbref_includes _ es k hes hk hnd
      refine ⟨hmem.1, fun m hm => ?_⟩
      rw [hmem.2 m hm]
      obtain ⟨hs1, hs2⟩ := hsane k hk
      rw [dictGet_cons, if_neg hs1, dictGet_cons, if_neg hs2]
      rfl
  · rintro ⟨k, hk, hty⟩
    have hne : ¬ cls.dbref_includes.isEmpty := by
      intro h
      exact List.ne_nil_of_mem hk (List.isEmpty_iff.mp h)
    obtain ⟨m, hm⟩ :=
      addIncludes_error_of_typeErr attrs cls.dbref_includes
        [("pk", effPk b pk auto), ("__collection__", .str c)] ⟨k, hk, hty⟩
    have hstub : buildRefStub cls (effPk b pk auto) attrs c = .error (.typeError m) := by
      unfold buildRefStub
      rw [if_neg hne]
      exact hm
    exact ⟨m, serializeV_doc_stub_error ⟨ckts, auto, false⟩ b cls pk attrs lattrs
      eager pkN embS ps c _ hreg hc (Or.inl rfl) hstub⟩

/-- Witness for C6's amended theorem: the `Note` document declares the
include paths `title` (resolvable) and `missing` (absent); the stub stores
`title` and omits `missing` without failing. -/
theorem include_paths_resolution_witness :
    ∃ es, demoBackend.serialize ⟨false, true, false⟩ 0
        (.doc noteClass (.int 2) false false [("title", .str "t")] [] none "pk" .null) [] =
      ({ effSave demoBackend (.int 2) true with
          nextAddr := demoBackend.nextAddr + 1 },
        .ok (.dict demoBackend.nextAddr es)) ∧
      ∀ k ∈ noteClass.dbref_includes,
        (∀ v, get_value [("title", .str "t")] k = .ok v →
          dictGet es (underscoreKey k) = some v) ∧
        (∀ m, get_value [("title", .str "t")] k = .error (.keyError m) →
          dictGet es (underscoreKey k) = none) :=
  (include_paths_resolution false true demoBackend noteClass (.int 2)
    [("title", .str "t")] [] none "pk" .null { collection := some "note" } "note"
    rfl rfl (by decide) (by decide)).1 (by decide)

/-! ## Sharing between emitted stubs and the input graph (C8) -/

/-- C8, counterexample.  The resolved reference-include value of an eager
instance is carried into the stub *by reference*, not deep-copied: the
`Author` document's attribute `info` is the mutable dictionary with
address 7, and the emitted stub contains a node with that same address, so
the returned stub shares mutable structure with the input (the include
loop stores `get_value`'s result directly, without `copy.deepcopy`). -/
theorem stub_no_shared_structure_refuted :
    (demoBackend.serialize defaultCfg 0 authorDoc []).2 =
      .ok (.dict 100 [("pk", .int 3), ("__collection__", .str "author"),
        ("info", .dict 7 [("x", .int 0)])]) ∧
    (7 : Nat) ∈ addrsV authorDoc ∧
    (7 : Nat) ∈ addrsV (.dict 100 [("pk", .int 3), ("__collection__", .str "author"),
      ("info", .dict 7 [("x", .int 0)])]) :=
  ⟨rfl, by decide, by decide⟩

/-- C8, amended.  Apart from the autosave side effect, the only
deep-copied data carried into a stub are the *lazy* attributes: the stub
emitted for a lazy instance allocates fresh addresses for everything it
carries and therefore shares no mutable structure with the input document.
For an eager instance the reference-include values are carried by
reference and may alias the input (see the counterexample). -/
theorem lazy_stub_deepcopy_freshness (ckts auto fq : Bool) (b : Backend)
    (cls : DocClass) (pk : Value) (attrs lattrs : List (String × Value))
    (eager : Option (List (String × Value))) (pkN : String) (embS : Value)
    (ps : Params) (c : String)
    (hreg : dictGet b.classes cls = some ps) (hc : ps.collection = some c)
    (hpk : addrsV pk = [])
    (hbound : ∀ a ∈ addrsV (.doc cls pk true false attrs lattrs eager pkN embS),
      a < b.nextAddr) :
    ∃ A o, b.serialize ⟨ckts, auto, fq⟩ 0
        (.doc cls pk true false attrs lattrs eager pkN embS) [] =
      ({ effSave b pk auto with
          nextAddr := (deepcopyEntries b.nextAddr lattrs).2 + 1 },
        .ok (.dict A o)) ∧
      ∀ a ∈ addrsV (.dict A o),
        a ∉ addrsV (.doc cls pk true false attrs lattrs eager pkN embS) := by
  refine ⟨(deepcopyEntries b.nextAddr lattrs).2,
    dictSet (dictSet (dictDel (deepcopyEntries b.nextAddr lattrs).1 pkN)
      "pk" (effPk b pk auto)) "__collection__" (.str c),
    serializeV_doc_lazy ⟨ckts, auto, fq⟩ b cls pk attrs lattrs eager pkN embS
      ps c hreg hc, ?_⟩
  intro a ha hmem
  have hfresh := deepcopyEntries_fresh b.nextAddr lattrs
  have hge : b.nextAddr ≤ a := by
    simp only [addrsV, List.mem_cons] at ha
    rcases ha with rfl | ha
    · exact hfresh.1
    · rcases addrsEntries_dictSet_sub _ _ _ a ha with h2 | h2
      · simp [addrsV] at h2
      · rcases addrsEntries_dictSet_sub _ _ _ a h2 with h3 | h3
        · rw [addrsV_effPk b pk auto hpk] at h3
          simp at h3
        · exact hfresh.2 a (addrsEntries_dictDel_sub _ _ a h3)
  exact absurd (hbound a hmem) (by omega)

/-- Witness for C8's amended theorem: the lazy `Book` document carrying a
mutable dictionary (address 5, below the allocator mark 100) serializes to
a stub none of whose addresses occur in the input. -/
theorem lazy_stub_deepcopy_freshness_witness :
    ∃ A o, demoBackend.serialize ⟨false, true, false⟩ 0
        (.doc bookClass (.int 9) true false []
          [("known", .dict 5 [("z", .int 1)])] none "pk" .null) [] =
      ({ effSave demoBackend (.int 9) true with
          nextAddr := (deepcopyEntries demoBackend.nextAddr
            [("known", .dict 5 [("z", .int 1)])]).2 + 1 },
        .ok (.dict A o)) ∧
      ∀ a ∈ addrsV (.dict A o),
        a ∉ addrsV (.doc bookClass (.int 9) true false []
          [("known", .dict 5 [("z", .int 1)])] none "pk" .null) :=
  lazy_stub_deepcopy_freshness false true false demoBackend bookClass (.int 9)
    [] [("known", .dict 5 [("z", .int 1)])] none "pk" .null
    { collection := some "book" } "book" rfl rfl rfl (by decide)

/-! ## Legacy `__pk__` precedence in the deserializer (C9) -/

/-- C9.  When a mapping carries both the legacy `__pk__` key and the
current `pk` key together with a known `__collection__`, the deserializer
uses `__pk__` as the constructed lazy instance's primary key (it is
checked first), and the `pk` field is not removed: it is passed through —
deep-copied — as an ordinary attribute of the lazy instance, while
`__pk__` and `__collection__` are deleted from the attributes. -/
theorem legacy_pk_precedence (b : Backend) (n A : Nat)
    (es : List (String × Value)) (c : String) (cls : DocClass) (v1 v2 : Value)
    (h1 : dictGet es "__pk__" = some v1)
    (h2 : dictGet es "pk" = some v2)
    (h3 : dictGet es "__collection__" = some (.str c))
    (h4 : dictGet b.collections c = some cls)
    (h5 : (dictGet b.classes cls).isSome = true) :
    deserializeV b n (.dict A es) =
      ((deepcopyEntries n es).2,
        .ok (.doc cls v1 true false
          (dictDel (dictDel (deepcopyEntries n es).1 "__pk__") "__collection__")
          (dictDel (dictDel (deepcopyEntries n es).1 "__pk__") "__collection__")
          none "pk" .null)) ∧
    dictGet (stripEntries (dictDel (dictDel (deepcopyEntries n es).1 "__pk__")
      "__collection__")) "pk" = some (stripV v2) ∧
    dictGet (stripEntries (dictDel (dictDel (deepcopyEntries n es).1 "__pk__")
      "__collection__")) "__pk__" = none := by
  obtain ⟨ps, hps⟩ := Option.isSome_iff_exists.mp h5
  rcases hE : deepcopyEntries n es with ⟨cp, n1⟩
  have hsc : stripEntries cp = stripEntries es := by
    have h6 := stripEntries_deepcopyEntries n es
    rw [hE] at h6
    exact h6
  have hpkf : pkFieldOf es = some "__pk__" := by
    simp [pkFieldOf, h1]
  refine ⟨?_, ?_, ?_⟩
  · simp only [deserializeV, h1, h3, h4, hE, hpkf]
    simp [pyHashable, create_instance, h4, hps, mkInstance, setDocPk, h1]
  · rw [stripEntries_dictDel, stripEntries_dictDel,
      dictGet_dictDel_ne _ _ _ (by decide), dictGet_dictDel_ne _ _ _ (by decide),
      hsc, dictGet_stripEntries, h2]
    rfl
  · rw [stripEntries_dictDel, stripEntries_dictDel,
      dictGet_dictDel_ne _ _ _ (by decide), dictGet_dictDel_self]

/-- Witness for C9: a stub with `__pk__ = 1`, `pk = 2` and collection
`book` deserializes to a lazy instance with primary key 1 whose attributes
still contain `pk = 2` and no `__pk__`. -/
theorem legacy_pk_precedence_witness :
    deserializeV demoBackend 0
        (.dict 0 [("__pk__", .int 1), ("pk", .int 2), ("note", .str "y"),
          ("__collection__", .str "book")]) =
      ((deepcopyEntries 0 [("__pk__", .int 1), ("pk", .int 2), ("note", .str "y"),
          ("__collection__", .str "book")]).2,
        .ok (.doc bookClass (.int 1) true false
          (dictDel (dictDel (deepcopyEntries 0
            [("__pk__", .int 1), ("pk", .int 2), ("note", .str "y"),
             ("__collection__", .str "book")]).1 "__pk__") "__collection__")
          (dictDel (dictDel (deepcopyEntries 0
            [("__pk__", .int 1), ("pk", .int 2), ("note", .str "y"),
             ("__collection__", .str "book")]).1 "__pk__") "__collection__")
          none "pk" .null)) ∧
    dictGet (stripEntries (dictDel (dictDel (deepcopyEntries 0
      [("__pk__", .int 1), ("pk", .int 2), ("note", .str "y"),
       ("__collection__", .str "book")]).1 "__pk__") "__collection__")) "pk" =
      some (stripV (.int 2)) ∧
    dictGet (stripEntries (dictDel (dictDel (deepcopyEntries 0
      [("__pk__", .int 1), ("pk", .int 2), ("note", .str "y"),
       ("__collection__", .str "book")]).1 "__pk__") "__collection__")) "__pk__" =
      none :=
  legacy_pk_precedence demoBackend 0 0
    [("__pk__", .int 1), ("pk", .int 2), ("note", .str "y"),
     ("__collection__", .str "book")]
    "book" bookClass (.int 1) (.int 2) rfl rfl rfl rfl rfl

/-! ## Totality of the deserializer (C7)

The deserializer has exactly two failure modes: hashing an unhashable
`__collection__` value, and the `self.classes[cls]` lookup inside
`create_instance` on a backend whose reverse index holds a class that is
no longer registered.  Excluding both, every value deserializes
successfully. -/

mutual

theorem deserializeV_total (b : Backend) (hsafe : createSafe b) (n : Nat) :
    ∀ v : Value, collectionsHashable v = true →
      ∃ n' r, deserializeV b n v = (n', .ok r)
  | .null, _ => ⟨n, .null, rfl⟩
  | .boolean bv, _ => ⟨n, .boolean bv, rfl⟩
  | .int m, _ => ⟨n, .int m, rfl⟩
  | .str s, _ => ⟨n, .str s, rfl⟩
  | .doc cls pk lz em attrs lattrs eager pkN embS, _ =>
    ⟨n, .doc cls pk lz em attrs lattrs eager pkN embS, rfl⟩
  | .vlist a xs, hh => by
    have hh2 : collectionsHashableElems xs = true := by
      simpa [collectionsHashable] using hh
    obtain ⟨n1, ys, hys⟩ := deserializeElems_total b hsafe n xs hh2
    exact ⟨n1 + 1, .vlist n1 ys, by simp only [deserializeV, hys]⟩
  | .tup xs, hh => by
    have hh2 : collectionsHashableElems xs = true := by
      simpa [collectionsHashable] using hh
    obtain ⟨n1, ys, hys⟩ := deserializeElems_total b hsafe n xs hh2
    exact ⟨n1 + 1, .vlist n1 ys, by simp only [deserializeV, hys]⟩
  | .dict a es, hh => by
    simp only [collectionsHashable, Bool.and_eq_true] at hh
    obtain ⟨hm, hhe⟩ := hh
    obtain ⟨n1, es', hes, _⟩ := deserializeEntries_total b hsafe n es hhe
    cases hcv : dictGet es "__collection__" with
    | none => exact ⟨n1 + 1, .dict n1 es', by simp only [deserializeV, hcv, hes]⟩
    | some cv =>
      have hcvh : pyHashable cv = true := by
        rw [hcv] at hm
        simpa using hm
      cases cv with
      | dict a2 es2 => simp [pyHashable] at hcvh
      | vlist a2 xs2 => simp [pyHashable] at hcvh
      | null =>
        exact ⟨n1 + 1, .dict n1 es', by
          simp only [deserializeV, hcv, hes, hcvh]
          simp [hes]⟩
      | boolean bv =>
        exact ⟨n1 + 1, .dict n1 es', by
          simp only [deserializeV, hcv, hes, hcvh]
          simp [hes]⟩
      | int m =>
        exact ⟨n1 + 1, .dict n1 es', by
          simp only [deserializeV, hcv, hes, hcvh]
          simp [hes]⟩
      | tup xs2 =>
        exact ⟨n1 + 1, .dict n1 es', by
          simp only [deserializeV, hcv, hcvh]
          simp [hes]⟩
      | doc cls2 pk2 lz2 em2 attrs2 lattrs2 eager2 pkN2 embS2 =>
        exact ⟨n1 + 1, .dict n1 es', by
          simp only [deserializeV, hcv, hcvh]
          simp [hes]⟩
      | str c =>
        cases hpk : pkFieldOf es with
        | none =>
          exact ⟨n1 + 1, .dict n1 es', by
            simp only [deserializeV, hcv, hcvh, hpk]
            simp [hes]⟩
        | some pkF =>
          cases hks : dictGet b.collections c with
          | none =>
            exact ⟨n1 + 1, .dict n1 es', by
              simp only [deserializeV, hcv, hcvh, hpk, hks]
              simp [hes]⟩
          | some cls =>
            have hcls : (dictGet b.classes cls).isSome = true :=
              hsafe (c, cls) (mem_of_dictGet _ _ _ hks)
            obtain ⟨ps, hps⟩ := Option.isSome_iff_exists.mp hcls
            rcases hE : deepcopyEntries n es with ⟨cp, n2⟩
            refine ⟨n2, .doc cls ((dictGet es pkF).getD .null) true false
              (dictDel (dictDel cp pkF) "__collection__")
              (dictDel (dictDel cp pkF) "__collection__") none "pk" .null, ?_⟩
            simp only [deserializeV, hcv, hcvh, hpk, hks, hE]
            simp [create_instance, hks, hps, mkInstance, setDocPk]

theorem deserializeEntries_total (b : Backend) (hsafe : createSafe b) (n : Nat) :
    ∀ es : List (String × Value), collectionsHashableEntries es = true →
      ∃ n' es', deserializeEntries b n es = (n', .ok es') ∧
        dictKeys es' = dictKeys es
  | [], _ => ⟨n, [], rfl, rfl⟩
  | (k, v) :: rest, hh => by
    simp only [collectionsHashableEntries, Bool.and_eq_true] at hh
    obtain ⟨hh1, hh2⟩ := hh
    obtain ⟨n1, v', hv⟩ := deserializeV_total b hsafe n v hh1
    obtain ⟨n2, rest', hrest, hkeys⟩ := deserializeEntries_total b hsafe n1 rest hh2
    refine ⟨n2, (k, v') :: rest', ?_, ?_⟩
    · simp only [deserializeEntries, hv, hrest]
    · simp only [dictKeys, List.map_cons]
      rw [show List.map Prod.fst rest' = dictKeys rest' from rfl, hkeys]
      rfl

theorem deserializeElems_total (b : Backend) (hsafe : createSafe b) (n : Nat) :
    ∀ xs : List Value, collectionsHashableElems xs = true →
      ∃ n' ys, deserializeElems b n xs = (n', .ok ys)
  | [], _ => ⟨n, [], rfl⟩
  | v :: rest, hh => by
    simp only [collectionsHashableElems, Bool.and_eq_true] at hh
    obtain ⟨hh1, hh2⟩ := hh
    obtain ⟨n1, v', hv⟩ := deserializeV_total b hsafe n v hh1
    obtain ⟨n2, rest', hrest⟩ := deserializeElems_total b hsafe n1 rest hh2
    exact ⟨n2, v' :: rest', by simp only [deserializeElems, hv, hrest]⟩

end

/-- C7, counterexample.  A mapping whose `__collection__` value is not a
known collection name — here an (unhashable) list — makes `deserialize`
fail with `TypeError` instead of falling back to plain-mapping handling:
the membership test `obj['__collection__'] in self.collections` hashes the
value. -/
theorem malformed_stub_never_fails_refuted :
    (demoBackend.deserialize 0
        (.dict 0 [("pk", .int 2), ("__collection__", .vlist 1 [])]) []).2 =
      .error (.typeError "unhashable type") := rfl

/-- C7, amended.  For a mapping that lacks a recognized primary-key field,
or lacks `__collection__`, or whose (hashable) `__collection__` value is
not a known collection name, the deserializer does not fail: it recurses
into each value and returns a plain mapping with the same keys — provided
the two failure modes outside the claim's scope are excluded: no nested
dictionary carries an *unhashable* `__collection__` value (else the
membership test raises `TypeError`, see the counterexample), and the
backend's reverse index only holds registered classes (else a nested
well-formed stub makes `create_instance` raise `KeyError`). -/
theorem malformed_stub_plain_mapping (b : Backend) (n A : Nat)
    (es : List (String × Value)) (hsafe : createSafe b)
    (hh : collectionsHashable (.dict A es) = true)
    (hmal : isRefStubShape b es = false) :
    ∃ n1 es', deserializeEntries b n es = (n1, .ok es') ∧
      deserializeV b n (.dict A es) = (n1 + 1, .ok (.dict n1 es')) ∧
      dictKeys es' = dictKeys es := by
  simp only [collectionsHashable, Bool.and_eq_true] at hh
  obtain ⟨hm, hhe⟩ := hh
  obtain ⟨n1, es', hes, hkeys⟩ := deserializeEntries_total b hsafe n es hhe
  refine ⟨n1, es', hes, ?_, hkeys⟩
  cases hcv : dictGet es "__collection__" with
  | none => simp only [deserializeV, hcv, hes]
  | some cv =>
    have hcvh : pyHashable cv = true := by
      rw [hcv] at hm
      simpa using hm
    cases cv with
    | dict a2 es2 => simp [pyHashable] at hcvh
    | vlist a2 xs2 => simp [pyHashable] at hcvh
    | null =>
      simp only [deserializeV, hcv, hcvh]
      simp [hes]
    | boolean bv =>
      simp only [deserializeV, hcv, hcvh]
      simp [hes]
    | int m =>
      simp only [deserializeV, hcv, hcvh]
      simp [hes]
    | tup xs2 =>
      simp only [deserializeV, hcv, hcvh]
      simp [hes]
    | doc cls2 pk2 lz2 em2 attrs2 lattrs2 eager2 pkN2 embS2 =>
      simp only [deserializeV, hcv, hcvh]
      simp [hes]
    | str c =>
      cases hpk : pkFieldOf es with
      | none =>
        simp only [deserializeV, hcv, hcvh, hpk]
        simp [hes]
      | some pkF =>
        have hpk2 : ((dictGet es "__pk__").isSome || (dictGet es "pk").isSome) = true := by
          by_cases hp1 : (dictGet es "__pk__").isSome
          · simp [hp1]
          · by_cases hp2 : (dictGet es "pk").isSome
            · simp [hp2]
            · rw [pkFieldOf, if_neg (by simp [hp1]), if_neg (by simp [hp2])] at hpk
              cases hpk
        simp only [isRefStubShape, hcv, hpk2, Bool.and_true] at hmal
        cases hks2 : dictGet b.collections c with
        | some cls =>
          rw [hks2] at hmal
          simp at hmal
        | none =>
          simp only [deserializeV, hcv, hcvh, hpk, hks2]
          simp [hes]

/-- Witness for C7's amended theorem: a mapping without `__collection__`
deserializes to a plain mapping with the same keys. -/
theorem malformed_stub_plain_mapping_witness :
    ∃ (n1 : Nat) (es' : List (String × Value)),
      deserializeEntries demoBackend 0
        [("name", .str "x"), ("pk", .int 1)] = (n1, .ok es') ∧
      deserializeV demoBackend 0 (.dict 0 [("name", .str "x"), ("pk", .int 1)]) =
        (n1 + 1, .ok (.dict n1 es')) ∧
      dictKeys es' =
        dictKeys ([("name", .str "x"), ("pk", .int 1)] : List (String × Value)) :=
  malformed_stub_plain_mapping demoBackend 0 0 [("name", .str "x"), ("pk", .int 1)]
    (by unfold createSafe; decide) rfl rfl

/-! ## Round-trip (C1) -/

/-- C1.  Serializing a registered, eager (non-lazy), un-embedded document
with `embed_level=0` and `autosave=true` emits its reference stub, and
deserializing that stub yields a *lazy* instance of the same registered
class whose primary key equals the document's primary key (after the
autosave step, `effPk`) and whose attributes are exactly the stub's
carried fields — the reference-include fields — i.e. the stub minus the
`pk` and `__collection__` keys (deep-copied, hence compared after address
erasure).  Hypotheses: the class is registered with collection `c`, the
reverse index maps `c` back to it (the forward invariant of C3), the stub
builds successfully, and the include fields do not collide with the
reserved wire keys (`h1`–`h3`). -/
theorem serialize_deserialize_roundtrip (ckts : Bool) (b : Backend) (n : Nat)
    (cls : DocClass) (pk : Value) (attrs lattrs : List (String × Value))
    (eager : Option (List (String × Value))) (pkN : String) (embS : Value)
    (ps : Params) (c : String) (es : List (String × Value))
    (hreg : dictGet b.classes cls = some ps)
    (hc : ps.collection = some c)
    (hrev : dictGet b.collections c = some cls)
    (hes : buildRefStub cls (effPk b pk true) attrs c = .ok es)
    (h1 : dictGet es "__pk__" = none)
    (h2 : dictGet es "pk" = some (effPk b pk true))
    (h3 : dictGet es "__collection__" = some (.str c)) :
    b.serialize ⟨ckts, true, false⟩ 0
        (.doc cls pk false false attrs lattrs eager pkN embS) [] =
      ({ effSave b pk true with nextAddr := b.nextAddr + 1 },
        .ok (.dict b.nextAddr es)) ∧
    deserializeV { effSave b pk true with nextAddr := b.nextAddr + 1 } n
        (.dict b.nextAddr es) =
      ((deepcopyEntries n es).2,
        .ok (.doc cls (effPk b pk true) true false
          (dictDel (dictDel (deepcopyEntries n es).1 "pk") "__collection__")
          (dictDel (dictDel (deepcopyEntries n es).1 "pk") "__collection__")
          none "pk" .null)) ∧
    stripEntries (dictDel (dictDel (deepcopyEntries n es).1 "pk") "__collection__") =
      dictDel (dictDel (stripEntries es) "pk") "__collection__" := by
  have hpkf : pkFieldOf es = some "pk" := by
    simp [pkFieldOf, h1, h2]
  have hcol2 : ({ effSave b pk true with nextAddr := b.nextAddr + 1 } : Backend).collections =
      b.collections := by
    simp
  have hcls2 : ({ effSave b pk true with nextAddr := b.nextAddr + 1 } : Backend).classes =
      b.classes := by
    simp
  have hrev2 : dictGet ({ effSave b pk true with
      nextAddr := b.nextAddr + 1 } : Backend).collections c = some cls := by
    rw [hcol2]
    exact hrev
  have hreg2 : dictGet ({ effSave b pk true with
      nextAddr := b.nextAddr + 1 } : Backend).classes cls = some ps := by
    rw [hcls2]
    exact hreg
  rcases hE : deepcopyEntries n es with ⟨cp, n1⟩
  refine ⟨?_, ?_, ?_⟩
  · exact serializeV_doc_stub ⟨ckts, true, false⟩ b cls pk attrs lattrs eager
      pkN embS ps c es hreg hc (Or.inl rfl) hes
  · simp only [deserializeV, h3, hpkf, hrev2, hE]
    simp [pyHashable, create_instance, hrev, hreg, hrev2, hreg2, mkInstance,
      setDocPk, h2]
  · have hsc : stripEntries cp = stripEntries es := by
      have h6 := stripEntries_deepcopyEntries n es
      rw [hE] at h6
      exact h6
    simp only [hE]
    rw [stripEntries_dictDel, stripEntries_dictDel, hsc]

/-- Witness for C1: the eager `Book` document with primary key 7
round-trips through its stub to a lazy `Book` instance with primary key 7
and empty remaining attributes. -/
theorem serialize_deserialize_roundtrip_witness :
    demoBackend.serialize ⟨false, true, false⟩ 0
        (.doc bookClass (.int 7) false false [("name", .str "x")] [] none "pk" .null) [] =
      ({ effSave demoBackend (.int 7) true with
          nextAddr := demoBackend.nextAddr + 1 },
        .ok (.dict demoBackend.nextAddr
          [("pk", .int 7), ("__collection__", .str "book")])) ∧
    deserializeV { effSave demoBackend (.int 7) true with
        nextAddr := demoBackend.nextAddr + 1 } 0
        (.dict demoBackend.nextAddr
          [("pk", .int 7), ("__collection__", .str "book")]) =
      ((deepcopyEntries 0 [("pk", .int 7), ("__collection__", .str "book")]).2,
        .ok (.doc bookClass (effPk demoBackend (.int 7) true) true false
          (dictDel (dictDel (deepcopyEntries 0
            [("pk", .int 7), ("__collection__", .str "book")]).1 "pk") "__collection__")
          (dictDel (dictDel (deepcopyEntries 0
            [("pk", .int 7), ("__collection__", .str "book")]).1 "pk") "__collection__")
          none "pk" .null)) ∧
    stripEntries (dictDel (dictDel (deepcopyEntries 0
        [("pk", .int 7), ("__collection__", .str "book")]).1 "pk") "__collection__") =
      dictDel (dictDel (stripEntries
        [("pk", .int 7), ("__collection__", .str "book")]) "pk") "__collection__" :=
  serialize_deserialize_roundtrip false demoBackend 0 bookClass (.int 7)
    [("name", .str "x")] [] none "pk" .null { collection := some "book" } "book"
    [("pk", .int 7), ("__collection__", .str "book")]
    rfl rfl rfl rfl rfl rfl rfl

end BlitzDb
